import Mathlib

/-!
A shallow embedding of the window-management core of filetwm (src/filetwm.c):
the client registry, the tiling layout engine (arrange), the stacking engine
(restack), the focus manager (focus), the fullscreen transition
(setfullscreen), the drag entry and exit points (grabresize,
grabresizeabort), and the workspace toggling (toggletag).

Modelling conventions:
- Clients are identified by a numeric id standing for the X window handle;
  the registry is a list of Client records in linked-list order (head first).
- X display-server side effects (XConfigureWindow, XRaiseWindow, drawing)
  are dropped; the published NetCliStack property is modelled as the list of
  window ids it holds after a restack, front of the property first.
- C int arithmetic is modelled on Int. C integer division and float-to-int
  casts truncate toward zero, which is Int.tdiv.
- C float values (mfact, mina, maxa) are modelled as exact fractions
  (CFloat, a numerator and a positive denominator, not normalised), with
  comparisons done by exact cross multiplication; the rounding error of
  single-precision floats is ignored. Divisions by zero that are undefined
  behaviour or infinities in C are given harmless conventional values; no
  theorem below depends on those cases.
-/

namespace FiletWM

/-- Exact stand-in for a C float: a fraction num / den. All values built by
the model have a positive den. -/
structure CFloat where
  num : Int
  den : Int
deriving DecidableEq

/-- Exact comparison of two fractions with positive denominators. -/
def CFloat.flt (a b : CFloat) : Bool := a.num * b.den < b.num * a.den

/-- A monitor rectangle (the Monitor struct: mx, my, mw, mh). -/
structure Mon where
  mx : Int
  my : Int
  mw : Int
  mh : Int
deriving DecidableEq

instance : Inhabited Mon := ⟨⟨0, 0, 0, 0⟩⟩

/-- A managed client window (the Client struct fields used by the claims). -/
structure Client where
  id : Nat
  x : Int
  y : Int
  w : Int
  h : Int
  fx : Int
  fy : Int
  fw : Int
  fh : Int
  basew : Int
  baseh : Int
  maxw : Int
  maxh : Int
  minw : Int
  minh : Int
  mina : CFloat
  maxa : CFloat
  bw : Int
  fbw : Int
  tags : Nat
  isfloating : Bool
  fstate : Bool
  isfullscreen : Bool
deriving DecidableEq

/-- Mouse motion modes (enum DragMove, DragSize, DragTile, WinEdge,
ZoomStack, CtrlNone). -/
inductive CtrlMode where
  | DragMove
  | DragSize
  | DragTile
  | WinEdge
  | ZoomStack
  | CtrlNone
deriving DecidableEq

/-- Window stack actions (enum CliPin, CliRaise, CliZoom, CliRemove,
BarShow, BarHide, CliNone). -/
inductive StackMode where
  | CliPin
  | CliRaise
  | CliZoom
  | CliRemove
  | BarShow
  | BarHide
  | CliNone
deriving DecidableEq

/-- Static configuration: screen size, snap distance, monitors, number of
workspaces (sw, sh, snap, mons and monslen, tagslen). -/
structure Config where
  sw : Int
  sh : Int
  snap : Int
  mons : List Mon
  tagslen : Nat
deriving DecidableEq

/-- The mutable window-manager state: the client registry (clients), the
selected, pinned and raised references (sel, pinned and the static raised
of restack), the bar focus flag, the workspace selection mask (tagset) and
the per-monitor layout parameters (mfact, nmain) plus the drag mode. -/
structure WM where
  clients : List Client
  sel : Option Nat
  pinned : Option Nat
  raised : Option Nat
  barfocus : Bool
  tagset : Nat
  mfact : List CFloat
  nmain : List Int
  ctrlmode : CtrlMode
deriving DecidableEq

/-- WIDTH(X): outer width including both borders. -/
def WIDTH (c : Client) : Int := c.w + 2 * c.bw

/-- HEIGHT(X): outer height including both borders. -/
def HEIGHT (c : Client) : Int := c.h + 2 * c.bw

/-- TAGMASK. -/
def TAGMASK (cfg : Config) : Nat := (1 <<< cfg.tagslen) - 1

/-- ISVISIBLE(C) against a workspace selection mask. -/
def visible (tagset : Nat) (c : Client) : Prop := c.tags &&& tagset ≠ 0

instance (tagset : Nat) (c : Client) : Decidable (visible tagset c) := by
  unfold visible; infer_instance

/-- INMON(X, Y, M). -/
def INMON (x y : Int) (m : Mon) : Prop :=
  m.mx ≤ x ∧ x < m.mx + m.mw ∧ m.my ≤ y ∧ y < m.my + m.mh

instance (x y : Int) (m : Mon) : Decidable (INMON x y m) := by
  unfold INMON; infer_instance

/-- The monitor search loop pattern running m from 0 while
m < monslen-1 and the point is not on monitor m (used by resize and
grabresizeabort): first matching index below monslen-1, else monslen-1. -/
def monFirst (cfg : Config) (x y : Int) : Nat :=
  ((List.range (cfg.mons.length - 1)).find?
    (fun m => decide (INMON x y (cfg.mons.getD m default)))).getD
    (cfg.mons.length - 1)

/-- The monitor search loop pattern running m from monslen-1 down while
m > 0 and the point is not on monitor m (used by arrange and
setfullscreen): last matching index above 0, else 0. -/
def monLast (cfg : Config) (x y : Int) : Nat :=
  (((List.range cfg.mons.length).reverse.takeWhile (fun m => m ≠ 0)).find?
    (fun m => decide (INMON x y (cfg.mons.getD m default)))).getD 0

/-- ONMON(C, M) center point x coordinate. -/
def centerx (c : Client) : Int := c.x + Int.tdiv (WIDTH c) 2

/-- ONMON(C, M) center point y coordinate. -/
def centery (c : Client) : Int := c.y + Int.tdiv (HEIGHT c) 2

/-- Registry lookup by window id (the role of pointer identity in C). -/
def findC (wm : WM) (cid : Nat) : Option Client :=
  wm.clients.find? (fun d => d.id == cid)

/-- Mutation of one registry entry through its pointer. -/
def updateClient (wm : WM) (cid : Nat) (f : Client → Client) : WM :=
  { wm with clients := wm.clients.map (fun d => if d.id = cid then f d else d) }

/-- attach: insert at the head of the registry. -/
def attach (c : Client) (cs : List Client) : List Client := c :: cs

/-- detach: remove a specific client from the registry, preserving the
relative order of the rest. -/
def detach (cid : Nat) (cs : List Client) : List Client :=
  cs.eraseP (fun d => d.id == cid)

/-- The detach-then-attach idiom (used on the pinned client and by CliZoom):
move the client with the given id to the head of the registry. Clients not
in the registry are never moved in the source; the model leaves the list
unchanged then. -/
def moveToHead (cid : Nat) (cs : List Client) : List Client :=
  match cs.find? (fun d => d.id == cid) with
  | some cl => cl :: detach cid cs
  | none => cs

/-- The geometry result of one resize call: the final x, y, w, h together
with the remembered floating geometry fields. -/
structure RVals where
  x : Int
  y : Int
  w : Int
  h : Int
  fx : Int
  fy : Int
  fw : Int
  fh : Int
deriving DecidableEq

/-- The pure computation inside resize (src/filetwm.c resize): minimum size
of 1, clamping into the visible area, edge snapping for floating
non-fullscreen clients (storing the pre-snap geometry in the f fields),
aspect-ratio limits, and min/max size hints (max hints skipped while
fullscreen). The four snap conditionals are guarded by the floating branch
condition instead of nesting, which computes the same values. -/
def resizeCalc (cfg : Config) (c : Client) (x0 y0 w0 h0 : Int) : RVals :=
  let w1 := max 1 w0
  let h1 := max 1 h0
  let x1 := max (1 - w1 - 2 * c.bw) (min (cfg.sw - 1) x0)
  let y1 := max (1 - h1 - 2 * c.bw) (min (cfg.sh - 1) y0)
  let flo := c.isfloating = true ∧ c.isfullscreen = false
  let m1 := monFirst cfg (x1 + cfg.snap) (y1 + cfg.snap)
  let m2 := monFirst cfg (x1 + w1 - cfg.snap) (y1 + h1 - cfg.snap)
  let M1 := cfg.mons.getD m1 default
  let M2 := cfg.mons.getD m2 default
  let x2 := if flo ∧ |M1.mx - x1| < cfg.snap then M1.mx else x1
  let y2 := if flo ∧ |M1.my - y1| < cfg.snap then M1.my else y1
  let w2 := if flo ∧ |(M2.mx + M2.mw) - (x2 + w1 + 2 * c.bw)| < cfg.snap
    then M2.mx + M2.mw - x2 - 2 * c.bw else w1
  let h2 := if flo ∧ |(M2.my + M2.mh) - (y2 + h1 + 2 * c.bw)| < cfg.snap
    then M2.my + M2.mh - y2 - 2 * c.bw else h1
  let wa := w2 - c.basew
  let ha := h2 - c.baseh
  let asp := 0 < c.mina.num ∧ 0 < c.maxa.num ∧ c.isfullscreen = false
  let overmax := c.maxa.num * ha < wa * c.maxa.den
  let wb := if asp ∧ overmax
    then Int.tdiv (2 * ha * c.maxa.num + c.maxa.den) (2 * c.maxa.den) else wa
  let hb := if asp ∧ ¬overmax ∧ c.mina.num * wa < ha * c.mina.den
    then Int.tdiv (2 * wa * c.mina.num + c.mina.den) (2 * c.mina.den) else ha
  let wc := max (wb + c.basew) c.minw
  let hc := max (hb + c.baseh) c.minh
  let wd := if c.maxw ≠ 0 ∧ c.isfullscreen = false then min wc c.maxw else wc
  let hd := if c.maxh ≠ 0 ∧ c.isfullscreen = false then min hc c.maxh else hc
  { x := x2
    y := y2
    w := wd
    h := hd
    fx := if flo then x1 else c.fx
    fy := if flo then y1 else c.fy
    fw := if flo then w1 else c.fw
    fh := if flo then h1 else c.fh }

/-- The effect of resize on the client record (the geometry update; the
display-server round trip when something changed is dropped). -/
def resizeClient (cfg : Config) (c : Client) (x0 y0 w0 h0 : Int) : Client :=
  let v := resizeCalc cfg c x0 y0 w0 h0
  { c with
    x := v.x
    y := v.y
    w := v.w
    h := v.h
    fx := v.fx
    fy := v.fy
    fw := v.fw
    fh := v.fh }

/-- resize applied through the registry to the client with the given id. -/
def resizeWM (cfg : Config) (wm : WM) (cid : Nat) (x0 y0 w0 h0 : Int) : WM :=
  updateClient wm cid (fun d => resizeClient cfg d x0 y0 w0 h0)

/-- The standard-layer index of a client in restack:
the value of (not isfloating) + 2 * isfullscreen, so 0 is floating,
1 is tiled and 2 is fullscreen (fullscreen clients are always floating in
this manager, so 3 is unreachable). -/
def layerOf (c : Client) : Nat :=
  (if c.isfloating then 0 else 1) + (if c.isfullscreen then 2 else 0)

/-- The client is neither the pinned nor the raised client (the filter of
the standard-layer loop in restack). -/
def notPR (wm : WM) (d : Client) : Prop :=
  some d.id ≠ wm.pinned ∧ some d.id ≠ wm.raised

instance (wm : WM) (d : Client) : Decidable (notPR wm d) := by
  unfold notPR; infer_instance

/-- The always-lift-up-anything-pinned step of restack: a floating pinned
client is detached and re-attached at the registry head. -/
def liftPinned (wm : WM) : WM :=
  match wm.pinned with
  | none => wm
  | some p =>
    match wm.clients.find? (fun d => d.id == p) with
    | some cl =>
      if cl.isfloating then { wm with clients := cl :: detach p wm.clients }
      else wm
    | none => wm

/-- The switch statement of restack: the state mutation selected by the
stack action (the bar modes are handled by restack itself, because they
re-enter through focus). -/
def restackSwitch (wm : WM) (c : Option Nat) (mode : StackMode) : WM :=
  match mode with
  | .CliPin => { wm with pinned := if wm.pinned ≠ c then c else none }
  | .CliRemove =>
    match c with
    | some cid =>
      { wm with
        clients := detach cid wm.clients
        pinned := if wm.pinned ≠ c then wm.pinned else none
        raised := if wm.raised ≠ c then wm.raised else none
        sel := if wm.sel ≠ c then wm.sel else none }
    | none => wm
  | .CliZoom =>
    match c with
    | some cid => { wm with clients := moveToHead cid wm.clients, raised := c }
    | none => { wm with raised := c }
  | .CliRaise => { wm with raised := c }
  | _ => wm

/-- The state effect of one restack call for the non-bar modes: the switch
mutation followed by the pinned lift. -/
def restackState (wm : WM) (c : Option Nat) (mode : StackMode) : WM :=
  liftPinned (restackSwitch wm c mode)

/-- The NetCliStack property content rebuilt by restack, front of the
property first. The property is deleted and then each window is pushed
with PropModePrepend: first the pinned window if any, then the raised
window if any, then each standard-layer pass (floating, tiled, fullscreen)
over the registry in order, skipping the pinned and raised clients. Every
push prepends, so the final front of the property is the last push. -/
def restackPublish (wm : WM) : List Nat :=
  let p1 : List Nat :=
    match wm.pinned with
    | some p => [p]
    | none => []
  let p2 : List Nat :=
    match wm.raised with
    | some r => r :: p1
    | none => p1
  (List.range 3).foldl
    (fun pr l => wm.clients.foldl
      (fun pr2 d => if notPR wm d ∧ layerOf d = l then d.id :: pr2 else pr2)
      pr)
    p2

/-- Modelled from the spec: the order the specification claims for the
published client stacking list, most-topmost first: the pinned client,
then the raised client, then the floating, tiled and fullscreen sub-layers
each enumerated in registry order. -/
def claimedTopFirst (wm : WM) : List Nat :=
  let sub := fun (l : Nat) =>
    (wm.clients.filter (fun d => decide (notPR wm d ∧ layerOf d = l))).map
      (fun d => d.id)
  wm.pinned.toList ++ wm.raised.toList ++ sub 0 ++ sub 1 ++ sub 2

/-- Visibility of an optional client reference as a boolean (with the
registry lookup standing for the pointer dereference). -/
def visOb (wm : WM) (o : Option Nat) : Bool :=
  match o.bind (findC wm) with
  | some c => decide (visible wm.tagset c)
  | none => false

/-- Visibility of an optional client reference. -/
def visO (wm : WM) (o : Option Nat) : Prop := visOb wm o = true

instance (wm : WM) (o : Option Nat) : Decidable (visO wm o) := by
  unfold visO; infer_instance

/-- The candidate computation at the top of focus: if the candidate is null
or not visible, it becomes the selected client; if that is also null or not
visible, it becomes the first visible client of the registry (or null). -/
def focusSel (wm : WM) (c0 : Option Nat) : Option Nat :=
  if (c0 = none ∨ ¬ visO wm c0) ∧ (wm.sel = none ∨ ¬ visO wm wm.sel) then
    (wm.clients.find? (fun d => decide (visible wm.tagset d))).map
      (fun d => d.id)
  else if c0 = none ∨ ¬ visO wm c0 then wm.sel
  else c0

/-- focus: select the chosen client and refresh the stack with a CliNone
restack (border colors, input focus and the active-window property are
display-server effects and are dropped). -/
def focus (wm : WM) (c0 : Option Nat) : WM :=
  restackState { wm with sel := focusSel wm c0 } none .CliNone

/-- restack: the full entry point. Returns the new state together with the
published NetCliStack property, or none for the early return of the
redundant bar modes (which publishes nothing). The bar modes set the bar
focus flag and re-enter through focus before the stacking recompute. -/
def restack (wm : WM) (c : Option Nat) (mode : StackMode) : WM × Option (List Nat) :=
  match mode with
  | .BarShow | .BarHide =>
    let v := decide (mode = StackMode.BarShow)
    if wm.barfocus = v then (wm, none)
    else
      let wmB := focus { wm with barfocus := v } wm.sel
      let wm2 := liftPinned wmB
      (wm2, some (restackPublish wm2))
  | _ =>
    let wm2 := restackState wm c mode
    (wm2, some (restackPublish wm2))

/-- The first counting pass of arrange: the number of visible tiled clients
on each monitor. -/
def nmCount (cfg : Config) (tagset : Nat) : List Client → (Nat → Int)
  | [] => fun _ => 0
  | c :: cs =>
    let f := nmCount cfg tagset cs
    if c.isfloating = false ∧ visible tagset c then
      let m := monLast cfg (centerx c) (centery c)
      Function.update f m (f m + 1)
    else f

/-- The tiling pass of arrange: walk the registry and resize every visible
tiled client into its slot, tracking per monitor the index of the next
client (i), the filled height of the main region (my) and of the secondary
region (ty). -/
def tileAux (cfg : Config) (tagset : Nat) (nm : Nat → Int) (mfact : List CFloat)
    (nmain : List Int) :
    List Client → (Nat → Int) → (Nat → Int) → (Nat → Int) → List Client
  | [], _, _, _ => []
  | c :: cs, ifun, myf, tyf =>
    if c.isfloating = false ∧ visible tagset c then
      let m := monLast cfg (centerx c) (centery c)
      let M := cfg.mons.getD m default
      let F := mfact.getD m ⟨0, 1⟩
      let N := nmain.getD m 0
      let mw := if N < nm m then Int.tdiv (M.mw * F.num) F.den else M.mw
      if ifun m < N then
        let h := Int.tdiv (M.mh - myf m) (min (nm m) N - ifun m)
        let c2 := resizeClient cfg c M.mx (M.my + myf m)
          (mw - 2 * c.bw) (h - 2 * c.bw)
        let myf2 := if myf m + HEIGHT c2 < M.mh
          then Function.update myf m (myf m + HEIGHT c2) else myf
        c2 :: tileAux cfg tagset nm mfact nmain cs
          (Function.update ifun m (ifun m + 1)) myf2 tyf
      else
        let h := Int.tdiv (M.mh - tyf m) (nm m - ifun m)
        let c2 := resizeClient cfg c (M.mx + mw) (M.my + tyf m)
          (M.mw - mw - 2 * c.bw) (h - 2 * c.bw)
        let tyf2 := if tyf m + HEIGHT c2 < M.mh
          then Function.update tyf m (tyf m + HEIGHT c2) else tyf
        c2 :: tileAux cfg tagset nm mfact nmain cs
          (Function.update ifun m (ifun m + 1)) myf tyf2
    else
      c :: tileAux cfg tagset nm mfact nmain cs ifun myf tyf

/-- arrange: ensure a visible window has focus, tile the visible non-floating
clients of every monitor, and raise the selected window (hiding off-workspace
windows is a display-server move and is dropped). -/
def arrange (cfg : Config) (wm : WM) : WM :=
  let wm1 := focus wm none
  let nm := nmCount cfg wm1.tagset wm1.clients
  let cs2 := tileAux cfg wm1.tagset nm wm1.mfact wm1.nmain wm1.clients
    (fun _ => 0) (fun _ => 0) (fun _ => 0)
  restackState { wm1 with clients := cs2 } wm1.sel .CliRaise

/-- setfullscreen: enter or leave the fullscreen state for the client with
the given id. Entering remembers the floating state and border width,
drops the border, forces floating, spans the monitors covered by the
window, and zooms; leaving restores the remembered state and the remembered
floating geometry. Both paths end in a full arrange. -/
def setfullscreen (cfg : Config) (wm : WM) (cid : Nat) (fullscreen : Bool) : WM :=
  match findC wm cid with
  | none => wm
  | some c =>
    let wm2 :=
      if fullscreen = true ∧ c.isfullscreen = false then
        let c1 : Client :=
          { c with isfullscreen := true, fstate := c.isfloating, fbw := c.bw, bw := 0, isfloating := true }
        let wmA := updateClient wm cid (fun d =>
          { d with isfullscreen := true, fstate := d.isfloating, fbw := d.bw, bw := 0, isfloating := true })
        let m1 := monLast cfg c.x c.y
        let M1 := cfg.mons.getD m1 default
        let m2a := ((List.range cfg.mons.length).find? (fun m =>
          decide (INMON (c.x + WIDTH c1) (c.y + HEIGHT c1)
            (cfg.mons.getD m default)))).getD cfg.mons.length
        let M2a := cfg.mons.getD m2a default
        let m2 := if m2a = cfg.mons.length ∨ M2a.mx + M2a.mw ≤ M1.mx ∨
          M2a.my + M2a.mh ≤ M1.my then m1 else m2a
        let M2 := cfg.mons.getD m2 default
        let w := M2.mx - M1.mx + M2.mw
        let h := M2.my - M1.my + M2.mh
        let wmB := resizeWM cfg wmA cid M1.mx M1.my w h
        restackState wmB (some cid) .CliZoom
      else if fullscreen = false ∧ c.isfullscreen = true then
        let wmA := updateClient wm cid (fun d =>
          { d with isfullscreen := false, isfloating := d.fstate, bw := d.fbw })
        resizeWM cfg wmA cid c.fx c.fy c.fw c.fh
      else wm
    arrange cfg wm2

/-- toggletag: toggle the workspaces of the selected client, rejecting a
toggle whose result would be the empty mask. -/
def toggletag (cfg : Config) (wm : WM) (ui : Nat) : WM :=
  match wm.sel with
  | none => wm
  | some cid =>
    match findC wm cid with
    | none => wm
    | some c =>
      if c.tags ^^^ (ui &&& TAGMASK cfg) ≠ 0 then
        arrange cfg (updateClient wm cid (fun d =>
          { d with tags := d.tags ^^^ (ui &&& TAGMASK cfg) }))
      else wm

/-- grabresize: enter a drag mode for the selected window. The boolean of
the result records whether the pointer grab was performed; an early return
leaves the state untouched and grabs nothing. -/
def grabresize (wm : WM) (m : CtrlMode) : WM × Bool :=
  if wm.ctrlmode = m then (wm, false)
  else
    match wm.sel with
    | none => (wm, false)
    | some cid =>
      match findC wm cid with
      | none => (wm, false)
      | some c =>
        if c.isfullscreen = true ∨ (m = CtrlMode.DragMove ∧ c.isfloating = false)
        then (wm, false)
        else
          let cm := if m = CtrlMode.DragSize ∧ c.isfloating = false
            then CtrlMode.DragTile else m
          let wm1 := { wm with ctrlmode := cm }
          let wm2 := if cm ≠ CtrlMode.WinEdge
            then restackState wm1 wm.sel .CliRaise else wm1
          (wm2, true)

/-- grabresizeabort: end a drag. Ending a DragTile drag derives the new
main factor (the ratio of the adjusted outer width to the monitor width,
clamped into the 0.05 to 0.95 range) and main count (the monitor height
divided by the adjusted outer height, at least 1) of the monitor holding
the window position, then re-arranges. -/
def grabresizeabort (cfg : Config) (wm : WM) : WM :=
  if wm.ctrlmode = CtrlMode.CtrlNone ∨ wm.ctrlmode = CtrlMode.ZoomStack then wm
  else
    let wm1 :=
      match wm.sel with
      | some cid =>
        if wm.ctrlmode = CtrlMode.DragTile then
          match findC wm cid with
          | some c =>
            let m := monFirst cfg c.x c.y
            let M := cfg.mons.getD m default
            let frac : CFloat := ⟨WIDTH c, M.mw⟩
            let fr1 := if CFloat.flt frac ⟨1, 20⟩ then (⟨1, 20⟩ : CFloat) else frac
            let fr2 := if CFloat.flt ⟨19, 20⟩ fr1 then (⟨19, 20⟩ : CFloat) else fr1
            arrange cfg { wm with
              mfact := wm.mfact.set m fr2
              nmain := wm.nmain.set m (max 1 (Int.tdiv M.mh (HEIGHT c))) }
          | none => wm
        else wm
      | none => wm
    { wm1 with ctrlmode := CtrlMode.CtrlNone }

/-! Concrete fixtures used by the scenario theorems: a single 1920 by 1080
monitor with the default configuration values (snap 8, nine workspaces),
and a hint-free client template. -/

/-- A single-monitor configuration matching the defaults. -/
def cfg1 : Config :=
  { sw := 1920, sh := 1080, snap := 8, mons := [⟨0, 0, 1920, 1080⟩], tagslen := 9 }

/-- A client with no size hints, no border, on workspace 1. -/
def noHints : Client :=
  { id := 0, x := 0, y := 0, w := 1, h := 1, fx := 0, fy := 0, fw := 1, fh := 1,
    basew := 0, baseh := 0, maxw := 0, maxh := 0, minw := 0, minh := 0,
    mina := ⟨0, 1⟩, maxa := ⟨0, 1⟩, bw := 0, fbw := 0, tags := 1,
    isfloating := false, fstate := false, isfullscreen := false }

/-! Plumbing lemmas: which fields each operation can touch, and how the
registry lookup moves through each operation. -/

@[simp] theorem resizeClient_id (cfg : Config) (c : Client) (x0 y0 w0 h0 : Int) :
    (resizeClient cfg c x0 y0 w0 h0).id = c.id := rfl

@[simp] theorem resizeClient_tags (cfg : Config) (c : Client) (x0 y0 w0 h0 : Int) :
    (resizeClient cfg c x0 y0 w0 h0).tags = c.tags := rfl

@[simp] theorem resizeClient_isfloating (cfg : Config) (c : Client) (x0 y0 w0 h0 : Int) :
    (resizeClient cfg c x0 y0 w0 h0).isfloating = c.isfloating := rfl

@[simp] theorem resizeClient_isfullscreen (cfg : Config) (c : Client) (x0 y0 w0 h0 : Int) :
    (resizeClient cfg c x0 y0 w0 h0).isfullscreen = c.isfullscreen := rfl

@[simp] theorem resizeClient_bw (cfg : Config) (c : Client) (x0 y0 w0 h0 : Int) :
    (resizeClient cfg c x0 y0 w0 h0).bw = c.bw := rfl

@[simp] theorem resizeClient_fbw (cfg : Config) (c : Client) (x0 y0 w0 h0 : Int) :
    (resizeClient cfg c x0 y0 w0 h0).fbw = c.fbw := rfl

@[simp] theorem resizeClient_fstate (cfg : Config) (c : Client) (x0 y0 w0 h0 : Int) :
    (resizeClient cfg c x0 y0 w0 h0).fstate = c.fstate := rfl

@[simp] theorem liftPinned_sel (wm : WM) : (liftPinned wm).sel = wm.sel := by
  unfold liftPinned
  split
  · rfl
  · split
    · split <;> rfl
    · rfl

@[simp] theorem liftPinned_pinned (wm : WM) : (liftPinned wm).pinned = wm.pinned := by
  unfold liftPinned
  split
  · rfl
  · split
    · split <;> rfl
    · rfl

@[simp] theorem liftPinned_raised (wm : WM) : (liftPinned wm).raised = wm.raised := by
  unfold liftPinned
  split
  · rfl
  · split
    · split <;> rfl
    · rfl

@[simp] theorem liftPinned_tagset (wm : WM) : (liftPinned wm).tagset = wm.tagset := by
  unfold liftPinned
  split
  · rfl
  · split
    · split <;> rfl
    · rfl

@[simp] theorem liftPinned_mfact (wm : WM) : (liftPinned wm).mfact = wm.mfact := by
  unfold liftPinned
  split
  · rfl
  · split
    · split <;> rfl
    · rfl

@[simp] theorem liftPinned_nmain (wm : WM) : (liftPinned wm).nmain = wm.nmain := by
  unfold liftPinned
  split
  · rfl
  · split
    · split <;> rfl
    · rfl

@[simp] theorem liftPinned_ctrlmode (wm : WM) : (liftPinned wm).ctrlmode = wm.ctrlmode := by
  unfold liftPinned
  split
  · rfl
  · split
    · split <;> rfl
    · rfl

@[simp] theorem liftPinned_barfocus (wm : WM) : (liftPinned wm).barfocus = wm.barfocus := by
  unfold liftPinned
  split
  · rfl
  · split
    · split <;> rfl
    · rfl

/-- A floating pinned client never exists in an all-tiled registry, so the
pinned lift does nothing there. -/
theorem liftPinned_of_tiled (wm : WM)
    (h : ∀ c ∈ wm.clients, c.isfloating = false) : liftPinned wm = wm := by
  unfold liftPinned
  split
  · rfl
  · split
    · rename_i p heq cl hfind
      rw [if_neg]
      rw [h cl (List.mem_of_find?_eq_some hfind)]
      simp
    · rfl

/-- Lookup of one id ignores erasure of a different id. -/
theorem find?_detach_ne (cs : List Client) (cid p : Nat) (h : p ≠ cid) :
    (detach p cs).find? (fun d => d.id == cid) = cs.find? (fun d => d.id == cid) := by
  induction cs with
  | nil => rfl
  | cons d rest ih =>
    unfold detach
    by_cases hd : d.id = p
    · rw [List.eraseP_cons_of_pos (by simp [hd])]
      rw [List.find?_cons_of_neg _ (by simp [hd, h])]
    · rw [List.eraseP_cons_of_neg (by simp [hd])]
      by_cases hc : d.id = cid
      · rw [List.find?_cons_of_pos _ (by simp [hc]),
          List.find?_cons_of_pos _ (by simp [hc])]
      · rw [List.find?_cons_of_neg _ (by simp [hc]),
          List.find?_cons_of_neg _ (by simp [hc])]
        exact ih

/-- Lookup is invariant under the detach-then-attach move. -/
theorem find?_moveToHead (cs : List Client) (cid p : Nat) :
    (moveToHead p cs).find? (fun d => d.id == cid) = cs.find? (fun d => d.id == cid) := by
  unfold moveToHead
  cases hfind : cs.find? (fun d => d.id == p) with
  | none => rfl
  | some cl =>
    have hclp : cl.id = p := by
      have := List.find?_some hfind
      simpa using this
    by_cases hcp : p = cid
    · subst hcp
      rw [List.find?_cons_of_pos _ (by simp [hclp])]
      exact hfind.symm
    · rw [List.find?_cons_of_neg _ (by simp [hclp, hcp])]
      exact find?_detach_ne cs cid p hcp

theorem findC_liftPinned (wm : WM) (cid : Nat) :
    findC (liftPinned wm) cid = findC wm cid := by
  unfold liftPinned
  cases hp : wm.pinned with
  | none => rfl
  | some p =>
    cases hfind : wm.clients.find? (fun d => d.id == p) with
    | none => simp only [hfind]
    | some cl =>
      simp only [hfind]
      by_cases hflo : cl.isfloating
      · rw [if_pos hflo]
        show (cl :: detach p wm.clients).find? (fun d => d.id == cid) = _
        have hclp : cl.id = p := by
          have := List.find?_some hfind
          simpa using this
        by_cases hcp : p = cid
        · subst hcp
          rw [List.find?_cons_of_pos _ (by simp [hclp])]
          exact hfind.symm
        · rw [List.find?_cons_of_neg _ (by simp [hclp, hcp])]
          exact find?_detach_ne wm.clients cid p hcp
      · rw [if_neg hflo]

theorem findC_restackState (wm : WM) (c : Option Nat) (mode : StackMode)
    (cid : Nat) (h : mode ≠ StackMode.CliRemove) :
    findC (restackState wm c mode) cid = findC wm cid := by
  unfold restackState
  rw [findC_liftPinned]
  unfold restackSwitch
  cases mode with
  | CliPin => rfl
  | CliRemove => exact absurd rfl h
  | CliZoom =>
    cases c with
    | none => rfl
    | some p =>
      show (moveToHead p wm.clients).find? _ = _
      exact find?_moveToHead wm.clients cid p
  | CliRaise => rfl
  | BarShow => rfl
  | BarHide => rfl
  | CliNone => rfl

theorem findC_focus (wm : WM) (c0 : Option Nat) (cid : Nat) :
    findC (focus wm c0) cid = findC wm cid := by
  unfold focus
  rw [findC_restackState _ _ _ _ (by simp)]
  rfl

/-- Lookup through a pointer mutation of the looked-up client. -/
theorem find?_map_update (l : List Client) (cid : Nat) (f : Client → Client)
    (hid : ∀ d, (f d).id = d.id) :
    (l.map (fun d => if d.id = cid then f d else d)).find? (fun d => d.id == cid)
      = (l.find? (fun d => d.id == cid)).map f := by
  induction l with
  | nil => rfl
  | cons d rest ih =>
    by_cases hd : d.id = cid
    · rw [List.map_cons, if_pos hd,
        List.find?_cons_of_pos _ (by simp [hid, hd]),
        List.find?_cons_of_pos _ (by simp [hd])]
      rfl
    · rw [List.map_cons, if_neg hd,
        List.find?_cons_of_neg _ (by simp [hd]),
        List.find?_cons_of_neg _ (by simp [hd])]
      exact ih

theorem findC_updateClient (wm : WM) (cid : Nat) (f : Client → Client)
    (hid : ∀ d, (f d).id = d.id) :
    findC (updateClient wm cid f) cid = (findC wm cid).map f :=
  find?_map_update wm.clients cid f hid

@[simp] theorem restackSwitch_mfact (wm : WM) (c : Option Nat) (mode : StackMode) :
    (restackSwitch wm c mode).mfact = wm.mfact := by
  cases mode <;> cases c <;> rfl

@[simp] theorem restackSwitch_nmain (wm : WM) (c : Option Nat) (mode : StackMode) :
    (restackSwitch wm c mode).nmain = wm.nmain := by
  cases mode <;> cases c <;> rfl

@[simp] theorem restackSwitch_tagset (wm : WM) (c : Option Nat) (mode : StackMode) :
    (restackSwitch wm c mode).tagset = wm.tagset := by
  cases mode <;> cases c <;> rfl

@[simp] theorem restackSwitch_ctrlmode (wm : WM) (c : Option Nat) (mode : StackMode) :
    (restackSwitch wm c mode).ctrlmode = wm.ctrlmode := by
  cases mode <;> cases c <;> rfl

@[simp] theorem restackSwitch_barfocus (wm : WM) (c : Option Nat) (mode : StackMode) :
    (restackSwitch wm c mode).barfocus = wm.barfocus := by
  cases mode <;> cases c <;> rfl

theorem restackSwitch_sel (wm : WM) (c : Option Nat) (mode : StackMode)
    (h : mode ≠ StackMode.CliRemove) : (restackSwitch wm c mode).sel = wm.sel := by
  cases mode <;> first
  | rfl
  | (cases c <;> rfl)
  | exact absurd rfl h

@[simp] theorem restackState_mfact (wm : WM) (c : Option Nat) (mode : StackMode) :
    (restackState wm c mode).mfact = wm.mfact := by
  unfold restackState; rw [liftPinned_mfact, restackSwitch_mfact]

@[simp] theorem restackState_nmain (wm : WM) (c : Option Nat) (mode : StackMode) :
    (restackState wm c mode).nmain = wm.nmain := by
  unfold restackState; rw [liftPinned_nmain, restackSwitch_nmain]

@[simp] theorem restackState_tagset (wm : WM) (c : Option Nat) (mode : StackMode) :
    (restackState wm c mode).tagset = wm.tagset := by
  unfold restackState; rw [liftPinned_tagset, restackSwitch_tagset]

@[simp] theorem restackState_ctrlmode (wm : WM) (c : Option Nat) (mode : StackMode) :
    (restackState wm c mode).ctrlmode = wm.ctrlmode := by
  unfold restackState; rw [liftPinned_ctrlmode, restackSwitch_ctrlmode]

@[simp] theorem restackState_barfocus (wm : WM) (c : Option Nat) (mode : StackMode) :
    (restackState wm c mode).barfocus = wm.barfocus := by
  unfold restackState; rw [liftPinned_barfocus, restackSwitch_barfocus]

@[simp] theorem focus_mfact (wm : WM) (c0 : Option Nat) :
    (focus wm c0).mfact = wm.mfact := by
  unfold focus; rw [restackState_mfact]

@[simp] theorem focus_nmain (wm : WM) (c0 : Option Nat) :
    (focus wm c0).nmain = wm.nmain := by
  unfold focus; rw [restackState_nmain]

@[simp] theorem focus_tagset (wm : WM) (c0 : Option Nat) :
    (focus wm c0).tagset = wm.tagset := by
  unfold focus; rw [restackState_tagset]

@[simp] theorem focus_ctrlmode (wm : WM) (c0 : Option Nat) :
    (focus wm c0).ctrlmode = wm.ctrlmode := by
  unfold focus; rw [restackState_ctrlmode]

@[simp] theorem focus_barfocus (wm : WM) (c0 : Option Nat) :
    (focus wm c0).barfocus = wm.barfocus := by
  unfold focus; rw [restackState_barfocus]

@[simp] theorem focus_sel (wm : WM) (c0 : Option Nat) :
    (focus wm c0).sel = focusSel wm c0 := by
  unfold focus
  unfold restackState
  rw [liftPinned_sel, restackSwitch_sel _ _ _ (by simp)]

@[simp] theorem arrange_mfact (cfg : Config) (wm : WM) :
    (arrange cfg wm).mfact = wm.mfact := by
  unfold arrange; rw [restackState_mfact]; exact focus_mfact wm none

@[simp] theorem arrange_nmain (cfg : Config) (wm : WM) :
    (arrange cfg wm).nmain = wm.nmain := by
  unfold arrange; rw [restackState_nmain]; exact focus_nmain wm none

@[simp] theorem arrange_tagset (cfg : Config) (wm : WM) :
    (arrange cfg wm).tagset = wm.tagset := by
  unfold arrange; rw [restackState_tagset]; exact focus_tagset wm none

@[simp] theorem arrange_ctrlmode (cfg : Config) (wm : WM) :
    (arrange cfg wm).ctrlmode = wm.ctrlmode := by
  unfold arrange; rw [restackState_ctrlmode]; exact focus_ctrlmode wm none

/-- A floating client is left untouched by the tiling pass, and stays where
it was relative to the other clients. -/
theorem tileAux_find?_floating (cfg : Config) (tagset : Nat) (nm : Nat → Int)
    (mfact : List CFloat) (nmain : List Int) (cid : Nat) (c : Client)
    (hflo : c.isfloating = true) :
    ∀ (cs : List Client) (ifun myf tyf : Nat → Int),
    cs.find? (fun d => d.id == cid) = some c →
    (tileAux cfg tagset nm mfact nmain cs ifun myf tyf).find?
      (fun d => d.id == cid) = some c := by
  intro cs
  induction cs with
  | nil => intro _ _ _ h; simp at h
  | cons d rest ih =>
    intro ifun myf tyf hfind
    by_cases hd : d.id = cid
    · rw [List.find?_cons_of_pos _ (by simp [hd])] at hfind
      injection hfind with hdc
      subst hdc
      simp only [tileAux]
      rw [if_neg (by rw [hflo]; simp)]
      rw [List.find?_cons_of_pos _ (by simp [hd])]
    · rw [List.find?_cons_of_neg _ (by simp [hd])] at hfind
      simp only [tileAux]
      split
      · split <;>
          (rw [List.find?_cons_of_neg _ (by simp [hd])]; exact ih _ _ _ hfind)
      · rw [List.find?_cons_of_neg _ (by simp [hd])]
        exact ih _ _ _ hfind

/-- The tiling pass can only resize a client: its identity, workspaces,
state flags and border width survive. -/
theorem tileAux_find?_pres (cfg : Config) (tagset : Nat) (nm : Nat → Int)
    (mfact : List CFloat) (nmain : List Int) (cid : Nat) (c : Client) :
    ∀ (cs : List Client) (ifun myf tyf : Nat → Int),
    cs.find? (fun d => d.id == cid) = some c →
    ∃ c2, (tileAux cfg tagset nm mfact nmain cs ifun myf tyf).find?
        (fun d => d.id == cid) = some c2 ∧
      c2.id = c.id ∧ c2.tags = c.tags ∧ c2.isfloating = c.isfloating ∧
      c2.isfullscreen = c.isfullscreen ∧ c2.bw = c.bw := by
  intro cs
  induction cs with
  | nil => intro _ _ _ h; simp at h
  | cons d rest ih =>
    intro ifun myf tyf hfind
    by_cases hd : d.id = cid
    · rw [List.find?_cons_of_pos _ (by simp [hd])] at hfind
      injection hfind with hdc
      subst hdc
      simp only [tileAux]
      split
      · split <;>
          exact ⟨_, List.find?_cons_of_pos _ (by simp [hd]), by simp⟩
      · exact ⟨_, List.find?_cons_of_pos _ (by simp [hd]), by simp⟩
    · rw [List.find?_cons_of_neg _ (by simp [hd])] at hfind
      simp only [tileAux]
      split
      · split <;>
          (rw [List.find?_cons_of_neg _ (by simp [hd])]; exact ih _ _ _ hfind)
      · rw [List.find?_cons_of_neg _ (by simp [hd])]
        exact ih _ _ _ hfind

/-- arrange can only resize a client: lookup still succeeds with the same
identity, workspaces, state flags and border width. -/
theorem findC_arrange_pres (cfg : Config) (wm : WM) (cid : Nat) (c : Client)
    (h : findC wm cid = some c) :
    ∃ c2, findC (arrange cfg wm) cid = some c2 ∧
      c2.id = c.id ∧ c2.tags = c.tags ∧ c2.isfloating = c.isfloating ∧
      c2.isfullscreen = c.isfullscreen ∧ c2.bw = c.bw := by
  unfold arrange
  rw [findC_restackState _ _ _ _ (by simp)]
  have hf : findC (focus wm none) cid = some c := by rw [findC_focus]; exact h
  exact tileAux_find?_pres cfg (focus wm none).tagset _ (focus wm none).mfact
    (focus wm none).nmain cid c (focus wm none).clients _ _ _ hf

/-- A floating client record is completely untouched by arrange. -/
theorem findC_arrange_floating (cfg : Config) (wm : WM) (cid : Nat) (c : Client)
    (h : findC wm cid = some c) (hflo : c.isfloating = true) :
    findC (arrange cfg wm) cid = some c := by
  unfold arrange
  rw [findC_restackState _ _ _ _ (by simp)]
  have hf : findC (focus wm none) cid = some c := by rw [findC_focus]; exact h
  exact tileAux_find?_floating cfg (focus wm none).tagset _ (focus wm none).mfact
    (focus wm none).nmain cid c hflo (focus wm none).clients _ _ _ hf

/-! Claim C10. -/

/-- C10: after restack(c, CliRemove) the selection reference never points to
the removed client, and neither do the pinned and raised references. -/
theorem c10_remove_clears_refs (wm : WM) (cid : Nat) :
    (restack wm (some cid) StackMode.CliRemove).1.sel ≠ some cid ∧
    (restack wm (some cid) StackMode.CliRemove).1.pinned ≠ some cid ∧
    (restack wm (some cid) StackMode.CliRemove).1.raised ≠ some cid := by
  show (restackState wm (some cid) StackMode.CliRemove).sel ≠ some cid ∧
    (restackState wm (some cid) StackMode.CliRemove).pinned ≠ some cid ∧
    (restackState wm (some cid) StackMode.CliRemove).raised ≠ some cid
  unfold restackState
  rw [liftPinned_sel, liftPinned_pinned, liftPinned_raised]
  unfold restackSwitch
  refine ⟨?_, ?_, ?_⟩ <;> (simp only; split <;> simp_all)

/-! Claim C9. -/

/-- C9: entering the Move drag with no selected client, a fullscreen
selected client, or a non-floating selected client is a silent no-op: the
state is unchanged and no pointer grab happens. -/
theorem c9_dragmove_noop (wm : WM)
    (h : wm.sel = none ∨ ∃ cid c, wm.sel = some cid ∧ findC wm cid = some c ∧
      (c.isfullscreen = true ∨ c.isfloating = false)) :
    grabresize wm CtrlMode.DragMove = (wm, false) := by
  unfold grabresize
  split
  · rfl
  · rcases h with h | ⟨cid, c, hsel, hfind, hc⟩
    · simp only [h]
    · simp only [hsel, hfind]
      rw [if_pos]
      rcases hc with hc | hc
      · exact Or.inl hc
      · exact Or.inr ⟨trivial, hc⟩

/-- A state whose selected client is tiled, for the C9 witness. -/
def wmC9 : WM :=
  { clients := [{ noHints with id := 4 }], sel := some 4, pinned := none,
    raised := none, barfocus := false, tagset := 1, mfact := [⟨3, 5⟩],
    nmain := [1], ctrlmode := CtrlMode.CtrlNone }

theorem c9_dragmove_noop_witness : grabresize wmC9 CtrlMode.DragMove = (wmC9, false) :=
  c9_dragmove_noop wmC9
    (Or.inr ⟨4, { noHints with id := 4 }, rfl, by decide, Or.inr rfl⟩)

/-! Claim C8. -/

/-- The fullscreen client with a large min-width hint used for C8. -/
def cC8 : Client := { noHints with minw := 3000, isfullscreen := true, isfloating := true }

/-- C8 counterexample: the claim says that while fullscreen neither the min
nor the max size hints clamp the result, so a fullscreen resize to
1920 by 1080 should keep width 1920 even with minw 3000; the code still
applies the min hint and yields width 3000. -/
theorem c8_fullscreen_hints_counterexample :
    (resizeClient cfg1 cC8 0 0 1920 1080).w = 3000 ∧
    ¬((resizeClient cfg1 cC8 0 0 1920 1080).w = 1920) := by decide

/-- C8 amended: while fullscreen, the max size hints and the aspect limits
are ignored, but the min size hints are still applied: the resulting sizes
are exactly the candidate sizes (at least 1) clamped from below by minw
and minh. -/
theorem c8_fullscreen_hints_amended (cfg : Config) (c : Client) (x0 y0 w0 h0 : Int)
    (hfs : c.isfullscreen = true) :
    (resizeClient cfg c x0 y0 w0 h0).w = max (max 1 w0) c.minw ∧
    (resizeClient cfg c x0 y0 w0 h0).h = max (max 1 h0) c.minh := by
  unfold resizeClient resizeCalc
  simp [hfs]

theorem c8_fullscreen_hints_witness :
    (resizeClient cfg1 cC8 0 0 500 400).w = max (max 1 500) 3000 ∧
    (resizeClient cfg1 cC8 0 0 500 400).h = max (max 1 400) 0 :=
  c8_fullscreen_hints_amended cfg1 cC8 0 0 500 400 rfl

/-! Claim C4. -/

/-- C4: toggletag never leaves the selected client with an empty workspace
mask: if the toggled mask would be zero the whole call is a no-op, and
otherwise the new mask is the nonzero toggle result. -/
theorem c4_toggletag_nonzero (cfg : Config) (wm : WM) (ui : Nat) (cid : Nat)
    (c : Client) (hsel : wm.sel = some cid) (hfind : findC wm cid = some c)
    (htags : c.tags ≠ 0) :
    ∃ c2, findC (toggletag cfg wm ui) cid = some c2 ∧ c2.tags ≠ 0 ∧
      (c.tags ^^^ (ui &&& TAGMASK cfg) = 0 → toggletag cfg wm ui = wm ∧ c2 = c) := by
  unfold toggletag
  simp only [hsel, hfind]
  by_cases hz : c.tags ^^^ (ui &&& TAGMASK cfg) = 0
  · rw [if_neg (by simpa using hz)]
    exact ⟨c, hfind, htags, fun _ => ⟨rfl, rfl⟩⟩
  · rw [if_pos hz]
    have hup : findC (updateClient wm cid
        (fun d => { d with tags := d.tags ^^^ (ui &&& TAGMASK cfg) })) cid
        = some { c with tags := c.tags ^^^ (ui &&& TAGMASK cfg) } := by
      rw [findC_updateClient wm cid
        (fun d => { d with tags := d.tags ^^^ (ui &&& TAGMASK cfg) }) (fun d => rfl), hfind]
      rfl
    obtain ⟨c2, h2, _, htg2, _, _, _⟩ := findC_arrange_pres cfg _ cid _ hup
    refine ⟨c2, h2, ?_, fun hcontra => absurd hcontra hz⟩
    rw [htg2]
    exact hz

/-- A state with one selected client on workspace 1, for the C4 witness. -/
def wmC4 : WM :=
  { clients := [{ noHints with id := 5 }], sel := some 5, pinned := none,
    raised := none, barfocus := false, tagset := 1, mfact := [⟨3, 5⟩],
    nmain := [1], ctrlmode := CtrlMode.CtrlNone }

theorem c4_toggletag_nonzero_witness :
    ∃ c2, findC (toggletag cfg1 wmC4 2) 5 = some c2 ∧ c2.tags ≠ 0 ∧
      (({ noHints with id := 5 } : Client).tags ^^^ (2 &&& TAGMASK cfg1) = 0 →
        toggletag cfg1 wmC4 2 = wmC4 ∧ c2 = { noHints with id := 5 }) :=
  c4_toggletag_nonzero cfg1 wmC4 2 5 { noHints with id := 5 } rfl (by decide) (by decide)

/-! Claim C6. -/

theorem visO_none (wm : WM) : ¬ visO wm none := by
  simp [visO, visOb]

theorem visO_some (wm : WM) (cid : Nat) :
    visO wm (some cid) ↔ ∃ c, findC wm cid = some c ∧ visible wm.tagset c := by
  unfold visO visOb
  cases h : findC wm cid with
  | none => simp [Option.bind, h]
  | some c => simp [Option.bind, h]

/-- Modelled from the spec: the fallback of focus. If the previously
selected client is still visible it is kept, else the first visible client
in registry order is chosen, else nothing is focused. -/
def specFallback (wm : WM) : Option Nat :=
  if visO wm wm.sel then wm.sel
  else (wm.clients.find? (fun d => decide (visible wm.tagset d))).map
    (fun d => d.id)

/-- Modelled from the spec: the focus choice. A visible candidate wins;
anything else falls back (a null candidate is never visible). -/
def specFocus (wm : WM) (c0 : Option Nat) : Option Nat :=
  if visO wm c0 then c0 else specFallback wm

/-- C6: focus selects exactly the candidate-or-fallback choice of the
specification, and whatever client ends up selected is visible under the
current workspace selection. -/
theorem c6_focus_fallback (wm : WM) (c0 : Option Nat) :
    (focus wm c0).sel = specFocus wm c0 ∧
    (∀ cid, (focus wm c0).sel = some cid →
      ∃ c, c ∈ wm.clients ∧ c.id = cid ∧ visible wm.tagset c) := by
  have hfs : (focus wm c0).sel = focusSel wm c0 := focus_sel wm c0
  constructor
  · rw [hfs]
    unfold focusSel specFocus specFallback
    by_cases h0 : visO wm c0
    · have hA : ¬(c0 = none ∨ ¬ visO wm c0) := by
        rintro (h | h)
        · rw [h] at h0; exact visO_none wm h0
        · exact h h0
      rw [if_neg (by rintro ⟨h, _⟩; exact hA h), if_neg hA, if_pos h0]
    · have hA : (c0 = none ∨ ¬ visO wm c0) := Or.inr h0
      by_cases hs : visO wm wm.sel
      · have hsn : wm.sel ≠ none := by
          intro h; rw [h] at hs; exact visO_none wm hs
        rw [if_neg (by rintro ⟨_, h | h⟩; exact hsn h; exact h hs),
          if_pos hA, if_neg h0, if_pos hs]
      · rw [if_pos ⟨hA, Or.inr hs⟩, if_neg h0, if_neg hs]
  · intro cid hcid
    rw [hfs] at hcid
    unfold focusSel at hcid
    split at hcid
    · obtain ⟨d, hd, hdid⟩ := Option.map_eq_some'.mp hcid
      exact ⟨d, List.mem_of_find?_eq_some hd,
        hdid, of_decide_eq_true (by simpa using List.find?_some hd)⟩
    · split at hcid
      · rename_i hAB hA
        have hs : visO wm wm.sel := by
          by_cases h : visO wm wm.sel
          · exact h
          · exact absurd ⟨hA, Or.inr h⟩ hAB
        rw [hcid] at hs
        obtain ⟨c, hc, hvis⟩ := (visO_some wm cid).mp hs
        refine ⟨c, List.mem_of_find?_eq_some hc, ?_, hvis⟩
        simpa using List.find?_some hc
      · rename_i hAB hA
        have h0 : visO wm c0 := by
          by_cases h : visO wm c0
          · exact h
          · exact absurd (Or.inr h) hA
        rw [hcid] at h0
        obtain ⟨c, hc, hvis⟩ := (visO_some wm cid).mp h0
        refine ⟨c, List.mem_of_find?_eq_some hc, ?_, hvis⟩
        simpa using List.find?_some hc

/-- A state whose selected client is on a hidden workspace while another
client is visible, for the C6 witness. -/
def wmC6 : WM :=
  { clients := [{ noHints with id := 6, tags := 2 }, { noHints with id := 7, tags := 1 }],
    sel := some 6, pinned := none, raised := none, barfocus := false,
    tagset := 1, mfact := [⟨3, 5⟩], nmain := [1], ctrlmode := CtrlMode.CtrlNone }

theorem c6_focus_fallback_witness :
    ∃ c, c ∈ wmC6.clients ∧ c.id = 7 ∧ visible wmC6.tagset c :=
  (c6_focus_fallback wmC6 (some 6)).2 7 (by decide)

/-! Claim C7. -/

/-- C7: releasing a DragTile drag with a selected client sets the mfact of
the monitor holding the window position to the ratio of the outer client
width to the monitor width clamped into the 0.05 to 0.95 range, sets nmain
to the monitor height divided by the outer client height (floored, at
least 1), recomputes the tiling with exactly those parameters, and leaves
the drag state idle. -/
theorem c7_tile_adjust (cfg : Config) (wm : WM) (cid : Nat) (c : Client)
    (hm : wm.ctrlmode = CtrlMode.DragTile) (hsel : wm.sel = some cid)
    (hfind : findC wm cid = some c)
    (hlen : monFirst cfg c.x c.y < wm.mfact.length)
    (hlen2 : monFirst cfg c.x c.y < wm.nmain.length) :
    (grabresizeabort cfg wm).ctrlmode = CtrlMode.CtrlNone ∧
    (grabresizeabort cfg wm).mfact.getD (monFirst cfg c.x c.y) ⟨0, 1⟩ =
      (if CFloat.flt ⟨19, 20⟩
          (if CFloat.flt ⟨WIDTH c, (cfg.mons.getD (monFirst cfg c.x c.y) default).mw⟩ ⟨1, 20⟩
            then ⟨1, 20⟩
            else ⟨WIDTH c, (cfg.mons.getD (monFirst cfg c.x c.y) default).mw⟩)
        then ⟨19, 20⟩
        else if CFloat.flt ⟨WIDTH c, (cfg.mons.getD (monFirst cfg c.x c.y) default).mw⟩ ⟨1, 20⟩
          then ⟨1, 20⟩
          else ⟨WIDTH c, (cfg.mons.getD (monFirst cfg c.x c.y) default).mw⟩) ∧
    (grabresizeabort cfg wm).nmain.getD (monFirst cfg c.x c.y) 0 =
      max 1 (Int.tdiv (cfg.mons.getD (monFirst cfg c.x c.y) default).mh (HEIGHT c)) ∧
    (grabresizeabort cfg wm).clients =
      (arrange cfg { wm with
        mfact := wm.mfact.set (monFirst cfg c.x c.y)
          (if CFloat.flt ⟨19, 20⟩
              (if CFloat.flt ⟨WIDTH c, (cfg.mons.getD (monFirst cfg c.x c.y) default).mw⟩ ⟨1, 20⟩
                then ⟨1, 20⟩
                else ⟨WIDTH c, (cfg.mons.getD (monFirst cfg c.x c.y) default).mw⟩)
            then ⟨19, 20⟩
            else if CFloat.flt ⟨WIDTH c, (cfg.mons.getD (monFirst cfg c.x c.y) default).mw⟩ ⟨1, 20⟩
              then ⟨1, 20⟩
              else ⟨WIDTH c, (cfg.mons.getD (monFirst cfg c.x c.y) default).mw⟩)
        nmain := wm.nmain.set (monFirst cfg c.x c.y)
          (max 1 (Int.tdiv (cfg.mons.getD (monFirst cfg c.x c.y) default).mh (HEIGHT c))) }).clients := by
  unfold grabresizeabort
  rw [if_neg (by simp [hm])]
  simp only [hsel, hm, if_pos rfl, hfind]
  refine ⟨by trivial, ?_, ?_, by trivial⟩
  · show (arrange cfg _).mfact.getD _ _ = _
    rw [arrange_mfact]
    simp [List.getD_eq_getElem?_getD, List.getElem?_set_self, hlen]
  · show (arrange cfg _).nmain.getD _ _ = _
    rw [arrange_nmain]
    simp [List.getD_eq_getElem?_getD, List.getElem?_set_self, hlen2]

/-- The C7 witness state: a tiled client adjusted to outer width 1600 and
outer height 540 on the 1920 by 1080 monitor, mid drag. -/
def wmC7 : WM :=
  { clients := [{ noHints with id := 8, x := 0, y := 0, w := 1600, h := 540 }],
    sel := some 8, pinned := none, raised := none, barfocus := false,
    tagset := 1, mfact := [⟨3, 5⟩], nmain := [1], ctrlmode := CtrlMode.DragTile }

theorem c7_tile_adjust_witness :
    (grabresizeabort cfg1 wmC7).ctrlmode = CtrlMode.CtrlNone ∧
    (grabresizeabort cfg1 wmC7).mfact.getD 0 ⟨0, 1⟩ = ⟨1600, 1920⟩ ∧
    (grabresizeabort cfg1 wmC7).nmain.getD 0 0 = 2 := by
  have h := c7_tile_adjust cfg1 wmC7 8
    { noHints with id := 8, x := 0, y := 0, w := 1600, h := 540 }
    rfl rfl (by decide) (by decide) (by decide)
  refine ⟨h.1, ?_, ?_⟩
  · rw [show (monFirst cfg1 0 0) = 0 from by decide] at h
    rw [h.2.1]
    decide
  · rw [show (monFirst cfg1 0 0) = 0 from by decide] at h
    rw [h.2.2.1]
    decide

/-! Claim C1. -/

/-- One standard-layer prepend pass of restack builds the reverse of the
filtered registry-order id list in front of the accumulator. -/
theorem publish_layer_foldl (wm : WM) (l : Nat) :
    ∀ (cs : List Client) (acc : List Nat),
    cs.foldl (fun pr2 d => if notPR wm d ∧ layerOf d = l then d.id :: pr2 else pr2) acc
      = ((cs.filter (fun d => decide (notPR wm d ∧ layerOf d = l))).map
          (fun d => d.id)).reverse ++ acc := by
  intro cs
  induction cs with
  | nil => intro acc; simp
  | cons d t ih =>
    intro acc
    by_cases h : notPR wm d ∧ layerOf d = l
    · simp [h, ih]
    · simp [h, ih]

/-- The published property is exactly the reverse of the topmost-first
order: the property is built by prepending, so it ends up bottom-to-top. -/
theorem restackPublish_eq (wm : WM) :
    restackPublish wm = (claimedTopFirst wm).reverse := by
  unfold restackPublish claimedTopFirst
  rw [show (List.range 3) = [0, 1, 2] from rfl]
  simp only [List.foldl]
  rw [publish_layer_foldl, publish_layer_foldl, publish_layer_foldl]
  cases hp : wm.pinned <;> cases hr : wm.raised <;>
    simp [List.reverse_append]

/-- C1 amended: after every stacking recompute the published client
stacking list mirrors the computed order bottom-to-top (most-topmost
last): its reverse is the pinned client, then the raised client, then the
floating, tiled and fullscreen-not-raised sub-layers, clients enumerated
in registry order within each sub-layer. -/
theorem c1_stacking_amended (wm : WM) (c : Option Nat) (mode : StackMode)
    (pub : List Nat) (h : (restack wm c mode).2 = some pub) :
    pub = (claimedTopFirst (restack wm c mode).1).reverse := by
  cases mode with
  | BarShow =>
    simp only [restack] at h ⊢
    split at h
    · exact absurd h (by simp)
    · rename_i hbar
      rw [if_neg hbar]
      simp only at h
      injection h with h2
      rw [← h2, restackPublish_eq]
  | BarHide =>
    simp only [restack] at h ⊢
    split at h
    · exact absurd h (by simp)
    · rename_i hbar
      rw [if_neg hbar]
      simp only at h
      injection h with h2
      rw [← h2, restackPublish_eq]
  | CliPin =>
    simp only [restack] at h ⊢
    injection h with h2
    rw [← h2, restackPublish_eq]
  | CliRaise =>
    simp only [restack] at h ⊢
    injection h with h2
    rw [← h2, restackPublish_eq]
  | CliZoom =>
    simp only [restack] at h ⊢
    injection h with h2
    rw [← h2, restackPublish_eq]
  | CliRemove =>
    simp only [restack] at h ⊢
    injection h with h2
    rw [← h2, restackPublish_eq]
  | CliNone =>
    simp only [restack] at h ⊢
    injection h with h2
    rw [← h2, restackPublish_eq]

/-- A state with a pinned floating client P (id 1), a raised floating
client R (id 2) and a tiled client T (id 3), all visible. -/
def wmC1 : WM :=
  { clients := [{ noHints with id := 1, isfloating := true },
                { noHints with id := 2, isfloating := true },
                { noHints with id := 3 }],
    sel := some 2, pinned := some 1, raised := some 2, barfocus := false,
    tagset := 1, mfact := [⟨3, 5⟩], nmain := [1], ctrlmode := CtrlMode.CtrlNone }

/-- C1 counterexample: the claim says the published list is most-topmost
first, which here would be P, R, T = 1, 2, 3; the property the code
publishes at this state is 3, 2, 1 (bottom-to-top). -/
theorem c1_stacking_counterexample :
    (restack wmC1 none StackMode.CliNone).2 = some [3, 2, 1] ∧
    claimedTopFirst (restack wmC1 none StackMode.CliNone).1 = [1, 2, 3] ∧
    ([3, 2, 1] : List Nat) ≠ [1, 2, 3] := by decide

theorem c1_stacking_witness :
    ([3, 2, 1] : List Nat) =
      (claimedTopFirst (restack wmC1 none StackMode.CliNone).1).reverse :=
  c1_stacking_amended wmC1 none StackMode.CliNone [3, 2, 1] (by decide)

/-! Claim C5. -/

/-- The C5 scenario state: three hint-free tiled clients A, B, C
(ids 1, 2, 3) added in that order through attach, which prepends, so the
registry reads C, B, A. -/
def wmC5 : WM :=
  { clients := attach { noHints with id := 3 }
      (attach { noHints with id := 2 } (attach { noHints with id := 1 } [])),
    sel := none, pinned := none, raised := none, barfocus := false,
    tagset := 1, mfact := [⟨3, 5⟩], nmain := [1], ctrlmode := CtrlMode.CtrlNone }

set_option maxRecDepth 10000 in
/-- C5 counterexample: the claim assigns A (added first) the main slot
(0, 0, 1152, 1080); because attach prepends, A is last in registry order
and the code gives it the bottom secondary slot (1152, 540, 768, 540). -/
theorem c5_scenario_counterexample :
    ((findC (arrange cfg1 wmC5) 1).map (fun c => (c.x, c.y, WIDTH c, HEIGHT c))
      = some (1152, 540, 768, 540)) ∧
    ¬ ((findC (arrange cfg1 wmC5) 1).map (fun c => (c.x, c.y, WIDTH c, HEIGHT c))
      = some (0, 0, 1152, 1080)) := by decide

set_option maxRecDepth 10000 in
/-- C5 amended: with clients A, B, C added in that order, the most recently
added client C fills the main region (0, 0, 1152, 1080), then B takes the
top secondary slot (1152, 0, 768, 540) and A the bottom secondary slot
(1152, 540, 768, 540). -/
theorem c5_scenario_amended :
    ((arrange cfg1 wmC5).clients.map (fun c => (c.id, c.x, c.y, WIDTH c, HEIGHT c)))
      = [(3, 0, 0, 1152, 1080), (2, 1152, 0, 768, 540), (1, 1152, 540, 768, 540)] := by
  decide

/-! Claim C2. -/

/-- C truncating division agrees with floor division on nonnegative
operands. -/
theorem tdiv_nonneg_eq (a b : Int) (ha : 0 ≤ a) (hb : 0 ≤ b) :
    Int.tdiv a b = a / b := by
  obtain ⟨m, rfl⟩ := Int.eq_ofNat_of_zero_le ha
  obtain ⟨n, rfl⟩ := Int.eq_ofNat_of_zero_le hb
  rfl

/-- If D holds at least k shares of size q, the integer division D / k
yields a share of at least q and leaves at least k - 1 shares behind. -/
theorem tdiv_bounds (D k q : Int) (hq : 0 < q) (hk : 0 < k) (h : k * q ≤ D) :
    q ≤ Int.tdiv D k ∧ (k - 1) * q ≤ D - Int.tdiv D k := by
  have hD : 0 ≤ D := le_trans (by positivity) h
  rw [tdiv_nonneg_eq D k hD (le_of_lt hk)]
  have hmod := Int.ediv_add_emod D k
  have hmn := Int.emod_nonneg D (ne_of_gt hk)
  have hml := Int.emod_lt_of_pos D hk
  have h1 : q ≤ D / k := by
    by_contra hc
    push_neg at hc
    have hle : D / k ≤ q - 1 := by omega
    have h2 : k * (D / k) ≤ k * (q - 1) :=
      mul_le_mul_of_nonneg_left hle (le_of_lt hk)
    have h3 : k * (q - 1) = k * q - k := by ring
    linarith
  refine ⟨h1, ?_⟩
  have h3 : (k - 1) * q ≤ (k - 1) * (D / k) :=
    mul_le_mul_of_nonneg_left h1 (by omega)
  have h4 : (k - 1) * (D / k) = k * (D / k) - D / k := by ring
  linarith

/-- The sequence of heights handed out inside one column (main or
secondary region) of the tiling loop: each client gets the remaining
height divided by the number of remaining clients, adjusted by the
1-pixel-minimum resize clamp and borders, and the accumulator advances
only while it stays below the full height. -/
def colHeights (H B : Int) : Nat → Int → List Int
  | 0, _ => []
  | k + 1, y =>
    let s := Int.tdiv (H - y) ((k : Int) + 1)
    let hc := max 1 (s - 2 * B) + 2 * B
    let y2 := if y + hc < H then y + hc else y
    hc :: colHeights H B k y2

theorem colHeights_length (H B : Int) :
    ∀ (k : Nat) (y : Int), (colHeights H B k y).length = k := by
  intro k
  induction k with
  | zero => intro y; rfl
  | succ n ih => intro y; simp only [colHeights, List.length_cons, ih]

/-- The rounding remainder is absorbed: a nonempty column with enough room
for every client (plus borders) fills the remaining height exactly. -/
theorem colHeights_sum (H B : Int) (hB : 0 ≤ B) :
    ∀ (k : Nat) (y : Int), 0 < k → (k : Int) * (2 * B + 1) ≤ H - y →
    (colHeights H B k y).sum = H - y := by
  intro k
  induction k with
  | zero => intro y h; exact absurd h (by simp)
  | succ n ih =>
    intro y _ hle
    have hle2 : ((n : Int) + 1) * (2 * B + 1) ≤ H - y := by
      have : ((n + 1 : Nat) : Int) = (n : Int) + 1 := by push_cast; ring
      rw [← this]; exact hle
    have hq : (0 : Int) < 2 * B + 1 := by omega
    have hk : (0 : Int) < (n : Int) + 1 := by positivity
    obtain ⟨hs1, hs2⟩ := tdiv_bounds (H - y) ((n : Int) + 1) (2 * B + 1) hq hk hle2
    cases Nat.eq_zero_or_pos n with
    | inl h0 =>
      subst h0
      simp only [colHeights, Nat.cast_zero, zero_add, Int.tdiv_one,
        List.sum_cons, List.sum_nil]
      simp only [Nat.cast_zero, zero_add] at hle2
      omega
    | inr hpos =>
      simp only [colHeights]
      have hhc : max 1 (Int.tdiv (H - y) ((n : Int) + 1) - 2 * B) + 2 * B
          = Int.tdiv (H - y) ((n : Int) + 1) := by omega
      rw [hhc]
      have hn1 : (1 : Int) ≤ (n : Int) := by exact_mod_cast hpos
      have hrem : (n : Int) * (2 * B + 1) ≤ (H - y) - Int.tdiv (H - y) ((n : Int) + 1) := by
        have := hs2
        have heq : ((n : Int) + 1 - 1) = (n : Int) := by ring
        rw [heq] at this
        exact this
      have hpos2 : (1 : Int) * (2 * B + 1) ≤ (n : Int) * (2 * B + 1) :=
        mul_le_mul_of_nonneg_right hn1 (le_of_lt hq)
      have hguard : y + Int.tdiv (H - y) ((n : Int) + 1) < H := by linarith
      rw [if_pos hguard]
      rw [List.sum_cons]
      rw [ih (y + Int.tdiv (H - y) ((n : Int) + 1)) hpos (by linarith)]
      ring

/-- With no height hints, a non-floating resize sets the inner height to
the candidate height clamped to at least one pixel. -/
theorem resizeClient_h_nohints (cfg : Config) (c : Client) (x0 y0 w0 h0 : Int)
    (hfl : c.isfloating = false) (hbh : c.baseh = 0) (hmh : c.minh = 0)
    (hxh : c.maxh = 0) (hmina : c.mina.num = 0) :
    (resizeClient cfg c x0 y0 w0 h0).h = max 1 h0 := by
  unfold resizeClient resizeCalc
  simp [hfl, hbh, hmh, hxh, hmina]

/-- With a single configured monitor, every monitor search lands on it. -/
theorem monLast_single (cfg : Config) (M : Mon) (hmons : cfg.mons = [M])
    (x y : Int) : monLast cfg x y = 0 := by
  unfold monLast
  rw [hmons]
  rfl

/-- With one monitor and only visible tiled clients, the counting pass
counts every client. -/
theorem nmCount_single (cfg : Config) (M : Mon) (hmons : cfg.mons = [M])
    (tagset : Nat) :
    ∀ (cs : List Client), (∀ c ∈ cs, c.isfloating = false ∧ visible tagset c) →
    nmCount cfg tagset cs 0 = (cs.length : Int) := by
  intro cs
  induction cs with
  | nil => intro _; rfl
  | cons d t ih =>
    intro h
    obtain ⟨hd1, hd2⟩ := h d (List.mem_cons_self d t)
    simp only [nmCount]
    rw [if_pos ⟨hd1, hd2⟩, monLast_single cfg M hmons]
    simp only [Function.update_same]
    rw [ih (fun c hc => h c (List.mem_cons_of_mem d hc))]
    simp only [List.length_cons]
    push_cast
    rfl

/-- The tiling pass keeps every client non-floating if they all were. -/
theorem tileAux_tiled (cfg : Config) (tagset : Nat) (nm : Nat → Int)
    (mfact : List CFloat) (nmain : List Int) :
    ∀ (cs : List Client) (ifun myf tyf : Nat → Int),
    (∀ c ∈ cs, c.isfloating = false) →
    ∀ d ∈ tileAux cfg tagset nm mfact nmain cs ifun myf tyf,
      d.isfloating = false := by
  intro cs
  induction cs with
  | nil => intro i my ty _ d hd; simp [tileAux] at hd
  | cons c t ih =>
    intro i my ty h d hd
    simp only [tileAux] at hd
    have hc := h c (List.mem_cons_self c t)
    have ht := fun e he => h e (List.mem_cons_of_mem c he)
    split at hd
    · split at hd
      · rcases List.mem_cons.mp hd with hh | hh
        · rw [hh]; simpa using hc
        · exact ih _ _ _ ht d hh
      · rcases List.mem_cons.mp hd with hh | hh
        · rw [hh]; simpa using hc
        · exact ih _ _ _ ht d hh
    · rcases List.mem_cons.mp hd with hh | hh
      · rw [hh]; exact hc
      · exact ih _ _ _ ht d hh

/-- When no client is floating, focus cannot reorder the registry. -/
theorem focus_clients_of_tiled (wm : WM) (c0 : Option Nat)
    (h : ∀ c ∈ wm.clients, c.isfloating = false) :
    (focus wm c0).clients = wm.clients := by
  unfold focus restackState
  rw [show restackSwitch { wm with sel := focusSel wm c0 } none StackMode.CliNone
      = { wm with sel := focusSel wm c0 } from rfl]
  rw [liftPinned_of_tiled _ (by exact h)]

/-- When no client is floating, a CliRaise restack cannot reorder the
registry. -/
theorem restackState_raise_clients (wm : WM) (c : Option Nat)
    (h : ∀ d ∈ wm.clients, d.isfloating = false) :
    (restackState wm c StackMode.CliRaise).clients = wm.clients := by
  unfold restackState
  rw [show restackSwitch wm c StackMode.CliRaise = { wm with raised := c } from rfl]
  rw [liftPinned_of_tiled _ (by exact h)]

/-- The heights the tiling pass hands out on one monitor follow the
column pattern: the first km clients (the main region) share the monitor
height from the main accumulator on, and the remaining ks clients (the
secondary region) share it from the secondary accumulator on. -/
theorem tile_heights (cfg : Config) (M : Mon) (hmons : cfg.mons = [M])
    (tagset : Nat) (nm : Nat → Int) (mfact : List CFloat) (nmain : List Int)
    (N B : Int) (hN : nmain.getD 0 0 = N) (hB : 0 ≤ B) :
    ∀ (cs : List Client) (km ks : Nat) (ifun myf tyf : Nat → Int),
    cs.length = km + ks →
    (∀ c ∈ cs, c.isfloating = false ∧ visible tagset c ∧ c.bw = B ∧
      c.baseh = 0 ∧ c.minh = 0 ∧ c.maxh = 0 ∧ c.mina.num = 0) →
    (0 < km → ifun 0 < N ∧ min (nm 0) N = ifun 0 + (km : Int)) →
    (km = 0 → 0 < ks → N ≤ ifun 0) →
    nm 0 = ifun 0 + (km : Int) + (ks : Int) →
    ((km : Int) * (2 * B + 1) ≤ M.mh - myf 0) →
    ((ks : Int) * (2 * B + 1) ≤ M.mh - tyf 0) →
    ((tileAux cfg tagset nm mfact nmain cs ifun myf tyf).map HEIGHT)
      = colHeights M.mh B km (myf 0) ++ colHeights M.mh B ks (tyf 0) := by
  intro cs
  induction cs with
  | nil =>
    intro km ks ifun myf tyf hlen _ _ _ _ _ _
    simp only [List.length_nil] at hlen
    obtain ⟨h1, h2⟩ : km = 0 ∧ ks = 0 := by omega
    subst h1; subst h2
    rfl
  | cons c t ih =>
    intro km ks ifun myf tyf hlen hcl hmain hsec hcount hmy hty
    obtain ⟨hc1, hc2, hc3, hc4, hc5, hc6, hc7⟩ := hcl c (List.mem_cons_self c t)
    have hting := fun e he => hcl e (List.mem_cons_of_mem c he)
    simp only [List.length_cons] at hlen
    simp only [tileAux]
    rw [if_pos ⟨hc1, hc2⟩, monLast_single cfg M hmons, hmons]
    simp only [List.getD_cons_zero]
    rw [hN]
    cases km with
    | succ k =>
      obtain ⟨hm1, hm2⟩ := hmain (Nat.succ_pos k)
      rw [if_pos hm1]
      have hdiv : min (nm 0) N - ifun 0 = ((k : Int) + 1) := by
        rw [hm2]; push_cast; ring
      rw [hdiv]
      have hkq : ((k : Int) + 1) * (2 * B + 1) ≤ M.mh - myf 0 := by
        have hcast : ((k + 1 : Nat) : Int) = (k : Int) + 1 := by push_cast; ring
        rw [← hcast]; exact hmy
      obtain ⟨hs1, hs2⟩ := tdiv_bounds (M.mh - myf 0) ((k : Int) + 1) (2 * B + 1)
        (by omega) (by positivity) hkq
      have hH : ∀ (warg : Int), HEIGHT (resizeClient cfg c M.mx (M.my + myf 0)
          warg (Int.tdiv (M.mh - myf 0) ((k : Int) + 1) - 2 * c.bw))
          = Int.tdiv (M.mh - myf 0) ((k : Int) + 1) := by
        intro warg
        unfold HEIGHT
        rw [resizeClient_h_nohints cfg c _ _ _ _ hc1 hc4 hc5 hc6 hc7,
          resizeClient_bw, hc3]
        omega
      simp only [List.map_cons]
      rw [hH]
      simp only [colHeights]
      have hhc : max 1 (Int.tdiv (M.mh - myf 0) ((k : Int) + 1) - 2 * B) + 2 * B
          = Int.tdiv (M.mh - myf 0) ((k : Int) + 1) := by omega
      rw [hhc]
      simp only [List.cons_append]
      congr 1
      by_cases hg : myf 0 + Int.tdiv (M.mh - myf 0) ((k : Int) + 1) < M.mh
      · rw [if_pos hg, if_pos hg]
        rw [ih k ks (Function.update ifun 0 (ifun 0 + 1))
          (Function.update myf 0 (myf 0 + Int.tdiv (M.mh - myf 0) ((k : Int) + 1))) tyf
          (by omega) hting
          (by
            intro hk
            simp only [Function.update_same]
            refine ⟨by omega, ?_⟩
            rw [hm2]; push_cast; ring)
          (by
            intro hk0 hks
            simp only [Function.update_same]
            subst hk0
            have hmin := hm2
            simp only [Nat.cast_zero] at hmin
            omega)
          (by simp only [Function.update_same]; push_cast at hcount ⊢; omega)
          (by
            simp only [Function.update_same]
            have heq : ((k : Int) + 1 - 1) = (k : Int) := by ring
            rw [heq] at hs2
            omega)
          hty]
        simp only [Function.update_same]
      · rw [if_neg hg, if_neg hg]
        have hk0 : k = 0 := by
          by_contra hk
          have hk1 : (1 : Int) ≤ (k : Int) := by
            have : 0 < k := Nat.pos_of_ne_zero hk
            exact_mod_cast this
          have heq : ((k : Int) + 1 - 1) = (k : Int) := by ring
          rw [heq] at hs2
          nlinarith
        subst hk0
        rw [ih 0 ks (Function.update ifun 0 (ifun 0 + 1)) myf tyf
          (by omega) hting
          (by intro hk; exact absurd hk (by omega))
          (by
            intro _ hks
            simp only [Function.update_same]
            omega)
          (by simp only [Function.update_same]; push_cast at hcount ⊢; omega)
          (by omega)
          hty]
    | zero =>
      have hks : 0 < ks := by omega
      rw [if_neg (by
        have := hsec rfl hks
        omega)]
      have hdiv2 : nm 0 - ifun 0 = (ks : Int) := by
        simp only [Nat.cast_zero] at hcount
        omega
      rw [hdiv2]
      cases ks with
      | zero => exact absurd hks (by omega)
      | succ j =>
        have hcast : ((j + 1 : Nat) : Int) = (j : Int) + 1 := by push_cast; ring
        rw [show ((j + 1 : Nat) : Int) = (j : Int) + 1 from hcast]
        have hkq : ((j : Int) + 1) * (2 * B + 1) ≤ M.mh - tyf 0 := by
          rw [← hcast]; exact hty
        obtain ⟨hs1, hs2⟩ := tdiv_bounds (M.mh - tyf 0) ((j : Int) + 1) (2 * B + 1)
          (by omega) (by positivity) hkq
        have hH : ∀ (warg xarg : Int), HEIGHT (resizeClient cfg c xarg (M.my + tyf 0)
            warg (Int.tdiv (M.mh - tyf 0) ((j : Int) + 1) - 2 * c.bw))
            = Int.tdiv (M.mh - tyf 0) ((j : Int) + 1) := by
          intro warg xarg
          unfold HEIGHT
          rw [resizeClient_h_nohints cfg c _ _ _ _ hc1 hc4 hc5 hc6 hc7,
            resizeClient_bw, hc3]
          omega
        simp only [List.map_cons]
        rw [hH]
        simp only [colHeights, List.nil_append]
        have hhc : max 1 (Int.tdiv (M.mh - tyf 0) ((j : Int) + 1) - 2 * B) + 2 * B
            = Int.tdiv (M.mh - tyf 0) ((j : Int) + 1) := by omega
        rw [hhc]
        congr 1
        by_cases hg : tyf 0 + Int.tdiv (M.mh - tyf 0) ((j : Int) + 1) < M.mh
        · rw [if_pos hg, if_pos hg]
          rw [ih 0 j (Function.update ifun 0 (ifun 0 + 1)) myf
            (Function.update tyf 0 (tyf 0 + Int.tdiv (M.mh - tyf 0) ((j : Int) + 1)))
            (by omega) hting
            (by intro hk; exact absurd hk (by omega))
            (by
              intro _ hj
              simp only [Function.update_same]
              have := hsec rfl hks
              omega)
            (by simp only [Function.update_same]; push_cast at hcount ⊢; omega)
            (by simp only [Nat.cast_zero]; omega)
            (by
              simp only [Function.update_same]
              have heq : ((j : Int) + 1 - 1) = (j : Int) := by ring
              rw [heq] at hs2
              omega)]
          simp [Function.update_same, colHeights]
        · rw [if_neg hg, if_neg hg]
          have hj0 : j = 0 := by
            by_contra hj
            have hj1 : (1 : Int) ≤ (j : Int) := by
              have : 0 < j := Nat.pos_of_ne_zero hj
              exact_mod_cast this
            have heq : ((j : Int) + 1 - 1) = (j : Int) := by ring
            rw [heq] at hs2
            nlinarith
          subst hj0
          rw [ih 0 0 (Function.update ifun 0 (ifun 0 + 1)) myf tyf
            (by omega) hting
            (by intro hk; exact absurd hk (by omega))
            (by intro _ hj; exact absurd hj (by omega))
            (by simp only [Function.update_same]; push_cast at hcount ⊢; omega)
            (by omega)
            (by omega)]
          simp [colHeights]

/-- On an all-tiled registry, arrange is exactly the tiling pass. -/
theorem arrange_clients_tiled (cfg : Config) (wm : WM)
    (h : ∀ c ∈ wm.clients, c.isfloating = false) :
    (arrange cfg wm).clients =
      tileAux cfg wm.tagset (nmCount cfg wm.tagset wm.clients) wm.mfact wm.nmain
        wm.clients (fun _ => 0) (fun _ => 0) (fun _ => 0) := by
  have hfc : (focus wm none).clients = wm.clients := focus_clients_of_tiled wm none h
  simp only [arrange]
  rw [restackState_raise_clients _ _ (by
    intro d hd
    exact tileAux_tiled _ _ _ _ _ _ _ _ _ (by rw [hfc]; exact h) d hd)]
  rw [hfc, focus_tagset, focus_mfact, focus_nmain]

/-- C2: on a monitor holding every client, with all clients tiled and
visible, sharing one border width, and carrying no interfering size hints,
and with enough monitor height for every client, the outer heights handed
out inside the main region sum exactly to the monitor height, and so do
the outer heights handed out inside the secondary region when it is
nonempty: the division remainder is absorbed, leaving no gap and no
overflow. -/
theorem c2_tiling_heights (cfg : Config) (M : Mon) (wm : WM) (B N : Int)
    (hmons : cfg.mons = [M])
    (hcl : ∀ c ∈ wm.clients, c.isfloating = false ∧ visible wm.tagset c ∧
      c.bw = B ∧ c.baseh = 0 ∧ c.minh = 0 ∧ c.maxh = 0 ∧ c.mina.num = 0)
    (hB : 0 ≤ B) (hN : wm.nmain = [N]) (h1N : 1 ≤ N)
    (hmh : (wm.clients.length : Int) * (2 * B + 1) ≤ M.mh) :
    (0 < wm.clients.length →
      (((arrange cfg wm).clients.take (min wm.clients.length N.toNat)).map
        HEIGHT).sum = M.mh) ∧
    (N < (wm.clients.length : Int) →
      (((arrange cfg wm).clients.drop (min wm.clients.length N.toNat)).map
        HEIGHT).sum = M.mh) := by
  have hall2 : ∀ c ∈ wm.clients, c.isfloating = false := fun c hc => (hcl c hc).1
  have harr := arrange_clients_tiled cfg wm hall2
  have hnm : nmCount cfg wm.tagset wm.clients 0 = (wm.clients.length : Int) :=
    nmCount_single cfg M hmons wm.tagset wm.clients
      (fun c hc => ⟨(hcl c hc).1, (hcl c hc).2.1⟩)
  have hq0 : (0 : Int) ≤ 2 * B + 1 := by omega
  have hkmle : ((min wm.clients.length N.toNat : Nat) : Int) * (2 * B + 1)
      ≤ M.mh - (fun _ => (0 : Int)) 0 := by
    have h1 : ((min wm.clients.length N.toNat : Nat) : Int)
        ≤ (wm.clients.length : Int) := by omega
    have h2 := mul_le_mul_of_nonneg_right h1 hq0
    show _ ≤ M.mh - 0
    linarith
  have hksle : ((wm.clients.length - min wm.clients.length N.toNat : Nat) : Int)
      * (2 * B + 1) ≤ M.mh - (fun _ => (0 : Int)) 0 := by
    have h1 : ((wm.clients.length - min wm.clients.length N.toNat : Nat) : Int)
        ≤ (wm.clients.length : Int) := by omega
    have h2 := mul_le_mul_of_nonneg_right h1 hq0
    show _ ≤ M.mh - 0
    linarith
  have hmap := tile_heights cfg M hmons wm.tagset
    (nmCount cfg wm.tagset wm.clients) wm.mfact wm.nmain N B
    (by rw [hN]; rfl) hB wm.clients
    (min wm.clients.length N.toNat) (wm.clients.length - min wm.clients.length N.toNat)
    (fun _ => 0) (fun _ => 0) (fun _ => 0)
    (by omega) hcl
    (by
      intro hkm
      refine ⟨?_, ?_⟩
      · show (0 : Int) < N
        omega
      · show min (nmCount cfg wm.tagset wm.clients 0) N = 0 + _
        rw [hnm]
        omega)
    (by
      intro hkm0 hks
      show N ≤ (0 : Int)
      omega)
    (by
      show nmCount cfg wm.tagset wm.clients 0 = 0 + _ + _
      rw [hnm]
      omega)
    hkmle hksle
  have hmap2 : (tileAux cfg wm.tagset (nmCount cfg wm.tagset wm.clients) wm.mfact
      wm.nmain wm.clients (fun _ => 0) (fun _ => 0) (fun _ => 0)).map HEIGHT
      = colHeights M.mh B (min wm.clients.length N.toNat) 0
        ++ colHeights M.mh B (wm.clients.length - min wm.clients.length N.toNat) 0 :=
    hmap
  constructor
  · intro hn
    rw [harr, List.map_take, hmap2]
    have htake : (colHeights M.mh B (min wm.clients.length N.toNat) 0
        ++ colHeights M.mh B (wm.clients.length - min wm.clients.length N.toNat) 0).take
          (min wm.clients.length N.toNat)
        = colHeights M.mh B (min wm.clients.length N.toNat) 0 := by
      have h := List.take_left
        (colHeights M.mh B (min wm.clients.length N.toNat) 0)
        (colHeights M.mh B (wm.clients.length - min wm.clients.length N.toNat) 0)
      rwa [colHeights_length] at h
    rw [htake]
    rw [colHeights_sum M.mh B hB (min wm.clients.length N.toNat) 0 (by omega) hkmle]
    omega
  · intro hNn
    rw [harr, List.map_drop, hmap2]
    have hdrop : (colHeights M.mh B (min wm.clients.length N.toNat) 0
        ++ colHeights M.mh B (wm.clients.length - min wm.clients.length N.toNat) 0).drop
          (min wm.clients.length N.toNat)
        = colHeights M.mh B (wm.clients.length - min wm.clients.length N.toNat) 0 := by
      have h := List.drop_left
        (colHeights M.mh B (min wm.clients.length N.toNat) 0)
        (colHeights M.mh B (wm.clients.length - min wm.clients.length N.toNat) 0)
      rwa [colHeights_length] at h
    rw [hdrop]
    rw [colHeights_sum M.mh B hB
      (wm.clients.length - min wm.clients.length N.toNat) 0 (by omega) hksle]
    omega

/-- The C2 witness state: three one-workspace borderless tiled clients. -/
def wmC2 : WM :=
  { clients := [{ noHints with id := 11 }, { noHints with id := 12 },
      { noHints with id := 13 }],
    sel := none, pinned := none, raised := none, barfocus := false,
    tagset := 1, mfact := [⟨3, 5⟩], nmain := [1], ctrlmode := CtrlMode.CtrlNone }

theorem c2_tiling_heights_witness :
    (((arrange cfg1 wmC2).clients.take (min wmC2.clients.length (1 : Int).toNat)).map
      HEIGHT).sum = (1080 : Int) ∧
    (((arrange cfg1 wmC2).clients.drop (min wmC2.clients.length (1 : Int).toNat)).map
      HEIGHT).sum = (1080 : Int) := by
  have h := c2_tiling_heights cfg1 ⟨0, 0, 1920, 1080⟩ wmC2 0 1 rfl
    (by decide) (by decide) rfl (by decide) (by decide)
  exact ⟨h.1 (by decide), h.2 (by decide)⟩

/-! Claim C3. -/

@[simp] theorem resizeClient_basew (cfg : Config) (c : Client) (x0 y0 w0 h0 : Int) :
    (resizeClient cfg c x0 y0 w0 h0).basew = c.basew := rfl

@[simp] theorem resizeClient_baseh (cfg : Config) (c : Client) (x0 y0 w0 h0 : Int) :
    (resizeClient cfg c x0 y0 w0 h0).baseh = c.baseh := rfl

@[simp] theorem resizeClient_minw (cfg : Config) (c : Client) (x0 y0 w0 h0 : Int) :
    (resizeClient cfg c x0 y0 w0 h0).minw = c.minw := rfl

@[simp] theorem resizeClient_minh (cfg : Config) (c : Client) (x0 y0 w0 h0 : Int) :
    (resizeClient cfg c x0 y0 w0 h0).minh = c.minh := rfl

@[simp] theorem resizeClient_maxw (cfg : Config) (c : Client) (x0 y0 w0 h0 : Int) :
    (resizeClient cfg c x0 y0 w0 h0).maxw = c.maxw := rfl

@[simp] theorem resizeClient_maxh (cfg : Config) (c : Client) (x0 y0 w0 h0 : Int) :
    (resizeClient cfg c x0 y0 w0 h0).maxh = c.maxh := rfl

@[simp] theorem resizeClient_mina (cfg : Config) (c : Client) (x0 y0 w0 h0 : Int) :
    (resizeClient cfg c x0 y0 w0 h0).mina = c.mina := rfl

@[simp] theorem resizeClient_maxa (cfg : Config) (c : Client) (x0 y0 w0 h0 : Int) :
    (resizeClient cfg c x0 y0 w0 h0).maxa = c.maxa := rfl

theorem resizeClient_x_calc (cfg : Config) (c : Client) (x0 y0 w0 h0 : Int) :
    (resizeClient cfg c x0 y0 w0 h0).x = (resizeCalc cfg c x0 y0 w0 h0).x := rfl

theorem resizeClient_y_calc (cfg : Config) (c : Client) (x0 y0 w0 h0 : Int) :
    (resizeClient cfg c x0 y0 w0 h0).y = (resizeCalc cfg c x0 y0 w0 h0).y := rfl

theorem resizeClient_w_calc (cfg : Config) (c : Client) (x0 y0 w0 h0 : Int) :
    (resizeClient cfg c x0 y0 w0 h0).w = (resizeCalc cfg c x0 y0 w0 h0).w := rfl

theorem resizeClient_h_calc (cfg : Config) (c : Client) (x0 y0 w0 h0 : Int) :
    (resizeClient cfg c x0 y0 w0 h0).h = (resizeCalc cfg c x0 y0 w0 h0).h := rfl

/-- While fullscreen, resize does not touch the remembered floating
geometry. -/
theorem resizeClient_fx_of_fs (cfg : Config) (c : Client) (x0 y0 w0 h0 : Int)
    (h : c.isfullscreen = true) :
    (resizeClient cfg c x0 y0 w0 h0).fx = c.fx := by
  unfold resizeClient resizeCalc
  simp [h]

theorem resizeClient_fy_of_fs (cfg : Config) (c : Client) (x0 y0 w0 h0 : Int)
    (h : c.isfullscreen = true) :
    (resizeClient cfg c x0 y0 w0 h0).fy = c.fy := by
  unfold resizeClient resizeCalc
  simp [h]

theorem resizeClient_fw_of_fs (cfg : Config) (c : Client) (x0 y0 w0 h0 : Int)
    (h : c.isfullscreen = true) :
    (resizeClient cfg c x0 y0 w0 h0).fw = c.fw := by
  unfold resizeClient resizeCalc
  simp [h]

theorem resizeClient_fh_of_fs (cfg : Config) (c : Client) (x0 y0 w0 h0 : Int)
    (h : c.isfullscreen = true) :
    (resizeClient cfg c x0 y0 w0 h0).fh = c.fh := by
  unfold resizeClient resizeCalc
  simp [h]

/-- The resize computation reads only the constraint fields, the state
flags, the border width and the remembered floating geometry of its
client: two clients agreeing there resize to the same values. -/
theorem resizeCalc_congr (cfg : Config) (c1 c2 : Client) (x0 y0 w0 h0 : Int)
    (h1 : c1.bw = c2.bw) (h2 : c1.isfloating = c2.isfloating)
    (h3 : c1.isfullscreen = c2.isfullscreen) (h4 : c1.basew = c2.basew)
    (h5 : c1.baseh = c2.baseh) (h6 : c1.minw = c2.minw) (h7 : c1.minh = c2.minh)
    (h8 : c1.maxw = c2.maxw) (h9 : c1.maxh = c2.maxh) (h10 : c1.mina = c2.mina)
    (h11 : c1.maxa = c2.maxa) (h12 : c1.fx = c2.fx) (h13 : c1.fy = c2.fy)
    (h14 : c1.fw = c2.fw) (h15 : c1.fh = c2.fh) :
    resizeCalc cfg c1 x0 y0 w0 h0 = resizeCalc cfg c2 x0 y0 w0 h0 := by
  unfold resizeCalc
  simp only [h1, h2, h3, h4, h5, h6, h7, h8, h9, h10, h11, h12, h13, h14, h15]

/-- The exit path of setfullscreen: leaving fullscreen restores the
remembered state and resizes back to the remembered floating geometry. -/
theorem setfullscreen_exit (cfg : Config) (W : WM) (cid : Nat) (cR : Client)
    (h4 : findC W cid = some cR) (hcRfs : cR.isfullscreen = true)
    (hflo2 : cR.fstate = true) :
    findC (setfullscreen cfg W cid false) cid
      = some (resizeClient cfg { cR with isfullscreen := false, isfloating := cR.fstate, bw := cR.fbw }
          cR.fx cR.fy cR.fw cR.fh) := by
  unfold setfullscreen
  simp only [h4]
  rw [if_neg (by simp), if_pos ⟨trivial, hcRfs⟩]
  have h5 : findC (updateClient W cid (fun d =>
      { d with isfullscreen := false, isfloating := d.fstate, bw := d.fbw })) cid
      = some { cR with isfullscreen := false, isfloating := cR.fstate, bw := cR.fbw } := by
    rw [findC_updateClient W cid (fun d =>
      { d with isfullscreen := false, isfloating := d.fstate, bw := d.fbw })
      (fun d => rfl), h4]
    rfl
  have h6 : findC (resizeWM cfg (updateClient W cid (fun d =>
      { d with isfullscreen := false, isfloating := d.fstate, bw := d.fbw })) cid
      cR.fx cR.fy cR.fw cR.fh) cid
      = some (resizeClient cfg { cR with isfullscreen := false, isfloating := cR.fstate, bw := cR.fbw }
          cR.fx cR.fy cR.fw cR.fh) := by
    unfold resizeWM
    rw [findC_updateClient _ cid
      (fun d => resizeClient cfg d cR.fx cR.fy cR.fw cR.fh) (fun d => rfl), h5]
    rfl
  exact findC_arrange_floating cfg _ cid _ h6
    (by rw [resizeClient_isfloating]; exact hflo2)

/-- C3 amended: the fullscreen round trip restores geometry for floating
clients. If a floating non-fullscreen client is in the resize fixpoint
(its geometry is what resize produces from its remembered floating
geometry, which holds whenever its geometry last came from resize), then
entering and leaving fullscreen restores its position, size, floating flag
and border width. For tiled clients the round trip does not restore
geometry (the zoom to the registry head re-tiles them into a different
slot), see the counterexample. -/
theorem c3_roundtrip_amended (cfg : Config) (wm : WM) (cid : Nat) (c : Client)
    (hfind : findC wm cid = some c) (hflo : c.isfloating = true)
    (hfs : c.isfullscreen = false)
    (hfix : resizeClient cfg c c.fx c.fy c.fw c.fh = c) :
    ∃ c2, findC (setfullscreen cfg (setfullscreen cfg wm cid true) cid false) cid
        = some c2 ∧
      c2.x = c.x ∧ c2.y = c.y ∧ c2.w = c.w ∧ c2.h = c.h ∧
      c2.isfloating = c.isfloating ∧ c2.bw = c.bw := by
  -- the record right after the enter-fullscreen field updates
  have h1 : findC (updateClient wm cid (fun d =>
      { d with isfullscreen := true, fstate := d.isfloating, fbw := d.bw, bw := 0, isfloating := true })) cid
      = some { c with isfullscreen := true, fstate := c.isfloating, fbw := c.bw, bw := 0, isfloating := true } := by
    rw [findC_updateClient wm cid (fun d =>
      { d with isfullscreen := true, fstate := d.isfloating, fbw := d.bw, bw := 0, isfloating := true }) (fun d => rfl), hfind]
    rfl
  -- the first call lands in the enter branch with some monitor-spread args
  have hS1eq : ∃ a b d0 e0, setfullscreen cfg wm cid true
      = arrange cfg (restackState (resizeWM cfg (updateClient wm cid (fun d =>
          { d with isfullscreen := true, fstate := d.isfloating, fbw := d.bw, bw := 0, isfloating := true })) cid a b d0 e0) (some cid)
          StackMode.CliZoom) := by
    unfold setfullscreen
    simp only [hfind]
    rw [if_pos ⟨trivial, hfs⟩]
    exact ⟨_, _, _, _, rfl⟩
  obtain ⟨a, b, d0, e0, hS1eq⟩ := hS1eq
  -- the record after the fullscreen resize
  have h2 : findC (resizeWM cfg (updateClient wm cid (fun d =>
      { d with isfullscreen := true, fstate := d.isfloating, fbw := d.bw, bw := 0, isfloating := true })) cid a b d0 e0) cid
      = some (resizeClient cfg { c with isfullscreen := true, fstate := c.isfloating, fbw := c.bw, bw := 0, isfloating := true }
          a b d0 e0) := by
    unfold resizeWM
    rw [findC_updateClient _ cid (fun d => resizeClient cfg d a b d0 e0)
      (fun d => rfl), h1]
    rfl
  have hcRflo : (resizeClient cfg { c with isfullscreen := true, fstate := c.isfloating, fbw := c.bw, bw := 0, isfloating := true }
      a b d0 e0).isfloating = true := by
    rw [resizeClient_isfloating]
  have h3 : findC (restackState (resizeWM cfg (updateClient wm cid (fun d =>
      { d with isfullscreen := true, fstate := d.isfloating, fbw := d.bw, bw := 0, isfloating := true })) cid a b d0 e0) (some cid)
      StackMode.CliZoom) cid
      = some (resizeClient cfg { c with isfullscreen := true, fstate := c.isfloating, fbw := c.bw, bw := 0, isfloating := true }
          a b d0 e0) := by
    rw [findC_restackState _ _ _ _ (by simp)]
    exact h2
  have h4 : findC (setfullscreen cfg wm cid true) cid
      = some (resizeClient cfg { c with isfullscreen := true, fstate := c.isfloating, fbw := c.bw, bw := 0, isfloating := true }
          a b d0 e0) := by
    rw [hS1eq]
    exact findC_arrange_floating cfg _ cid _ h3 hcRflo
  -- abbreviations for the mid-trip record
  generalize hcR : resizeClient cfg { c with isfullscreen := true, fstate := c.isfloating, fbw := c.bw, bw := 0, isfloating := true }
      a b d0 e0 = cR at h4
  have hcRfs : cR.isfullscreen = true := by rw [← hcR]; rfl
  have hcRfstate : cR.fstate = c.isfloating := by rw [← hcR]; rfl
  have hcRfbw : cR.fbw = c.bw := by rw [← hcR]; rfl
  have hcRfx : cR.fx = c.fx := by
    rw [← hcR]; exact resizeClient_fx_of_fs cfg _ a b d0 e0 rfl
  have hcRfy : cR.fy = c.fy := by
    rw [← hcR]; exact resizeClient_fy_of_fs cfg _ a b d0 e0 rfl
  have hcRfw : cR.fw = c.fw := by
    rw [← hcR]; exact resizeClient_fw_of_fs cfg _ a b d0 e0 rfl
  have hcRfh : cR.fh = c.fh := by
    rw [← hcR]; exact resizeClient_fh_of_fs cfg _ a b d0 e0 rfl
  have hcRbasew : cR.basew = c.basew := by rw [← hcR]; rfl
  have hcRbaseh : cR.baseh = c.baseh := by rw [← hcR]; rfl
  have hcRminw : cR.minw = c.minw := by rw [← hcR]; rfl
  have hcRminh : cR.minh = c.minh := by rw [← hcR]; rfl
  have hcRmaxw : cR.maxw = c.maxw := by rw [← hcR]; rfl
  have hcRmaxh : cR.maxh = c.maxh := by rw [← hcR]; rfl
  have hcRmina : cR.mina = c.mina := by rw [← hcR]; rfl
  have hcRmaxa : cR.maxa = c.maxa := by rw [← hcR]; rfl
  -- the second call lands in the leave branch
  have h7 := setfullscreen_exit cfg (setfullscreen cfg wm cid true) cid cR h4
    hcRfs (hcRfstate.trans hflo)
  -- the restoring resize recomputes exactly the original fixpoint values
  have hcalc : resizeCalc cfg { cR with isfullscreen := false, isfloating := cR.fstate, bw := cR.fbw } cR.fx cR.fy cR.fw cR.fh
      = resizeCalc cfg c c.fx c.fy c.fw c.fh := by
    rw [hcRfx, hcRfy, hcRfw, hcRfh]
    exact resizeCalc_congr cfg _ c c.fx c.fy c.fw c.fh
      (by simpa using hcRfbw) (by simpa using hcRfstate.trans hflo |>.trans hflo.symm)
      (by simpa using hfs.symm) (by simpa using hcRbasew) (by simpa using hcRbaseh)
      (by simpa using hcRminw) (by simpa using hcRminh) (by simpa using hcRmaxw)
      (by simpa using hcRmaxh) (by simpa using hcRmina) (by simpa using hcRmaxa)
      (by simpa using hcRfx) (by simpa using hcRfy) (by simpa using hcRfw)
      (by simpa using hcRfh)
  refine ⟨_, h7, ?_, ?_, ?_, ?_, ?_, ?_⟩
  · rw [resizeClient_x_calc, hcalc, ← resizeClient_x_calc, hfix]
  · rw [resizeClient_y_calc, hcalc, ← resizeClient_y_calc, hfix]
  · rw [resizeClient_w_calc, hcalc, ← resizeClient_w_calc, hfix]
  · rw [resizeClient_h_calc, hcalc, ← resizeClient_h_calc, hfix]
  · rw [resizeClient_isfloating]
    show cR.fstate = c.isfloating
    exact hcRfstate
  · rw [resizeClient_bw]
    show cR.fbw = c.bw
    exact hcRfbw

/-- Two tiled clients laid out as main (id 1) and secondary (id 2) on the
1920 by 1080 monitor. -/
def wmC3 : WM :=
  { clients := [{ noHints with id := 1, x := 0, y := 0, w := 1152, h := 1080, fx := 5, fy := 5, fw := 50, fh := 50 },
      { noHints with id := 2, x := 1152, y := 0, w := 768, h := 1080, fx := 10, fy := 10, fw := 100, fh := 100 }],
    sel := some 2, pinned := none, raised := none, barfocus := false,
    tagset := 1, mfact := [⟨3, 5⟩], nmain := [1], ctrlmode := CtrlMode.CtrlNone }

set_option maxRecDepth 10000 in
set_option maxHeartbeats 2000000 in
/-- C3 counterexample: the claim states the round trip restores geometry
for every client. The tiled secondary client at (1152, 0, 768, 1080) is
zoomed to the registry head on entering fullscreen, so leaving fullscreen
re-tiles it into the main slot (0, 0, 1152, 1080) instead of its old
geometry. -/
theorem c3_roundtrip_counterexample :
    ((findC (setfullscreen cfg1 (setfullscreen cfg1 wmC3 2 true) 2 false) 2).map
      (fun c => (c.x, c.y, c.w, c.h))) = some (0, 0, 1152, 1080) ∧
    ((0, 0, 1152, 1080) : Int × Int × Int × Int) ≠ (1152, 0, 768, 1080) := by
  decide

/-- A floating client in the resize fixpoint, for the C3 witness. -/
def cC3 : Client :=
  { noHints with id := 21, x := 10, y := 10, w := 200, h := 150, fx := 10, fy := 10, fw := 200, fh := 150, isfloating := true }

/-- The C3 witness state. -/
def wmC3w : WM :=
  { clients := [cC3], sel := some 21, pinned := none, raised := none,
    barfocus := false, tagset := 1, mfact := [⟨3, 5⟩], nmain := [1],
    ctrlmode := CtrlMode.CtrlNone }

theorem c3_roundtrip_witness :
    ∃ c2, findC (setfullscreen cfg1 (setfullscreen cfg1 wmC3w 21 true) 21 false) 21
        = some c2 ∧
      c2.x = cC3.x ∧ c2.y = cC3.y ∧ c2.w = cC3.w ∧ c2.h = cC3.h ∧
      c2.isfloating = cC3.isfloating ∧ c2.bw = cC3.bw :=
  c3_roundtrip_amended cfg1 wmC3w 21 cC3 (by decide) rfl rfl (by decide)

end FiletWM
